/-
Verification of the island-merge puzzle core: grid/tile board, incremental
union-find connectivity, and the achievement/progress engine.

The definitions below are shallow embeddings of the Go sources:
  * pkg/island (board.go, unionfind)  — tiles, board, union-find
  * pkg/achievements/achievements.go  — achievement system

Go slices become Lean `List`s, Go `int` becomes `Int` where signedness can
matter (coordinates, counters) and `Nat` where it cannot (array indices,
sizes).  Go's in-place mutation becomes explicit state passing.  The
recursive `Find` with path compression is embedded with explicit fuel; for
any well-formed parent array (`UFWF`) a fuel of `parent.length` is enough,
which is how the wrapper `UnionFind.Find` instantiates it.
-/
import Mathlib

namespace IslandMerge

/-! ### Tiles -/

inductive TileType where
  | TileEmpty
  | TileLand
  | TileSea
  | TileBridge
deriving DecidableEq, Repr

structure Tile where
  type : TileType
deriving DecidableEq, Repr

/-! ### Union-find (pkg/island, UnionFind) -/

structure UnionFind where
  parent : List Nat
  rank : List Nat
  count : Int
deriving DecidableEq, Repr

def NewUnionFind (size : Nat) : UnionFind :=
  { parent := List.range size
    rank := List.replicate size 0
    count := (size : Int) }

/-- Reading `parent[x]`; out-of-range reads (impossible in well-formed use,
Go would panic) default to `x` itself. -/
def parentOf (p : List Nat) (x : Nat) : Nat := p.getD x x

/-- `Find` with path compression, fuel-indexed.  Mirrors
`if parent[x] != x { parent[x] = Find(parent[x]) }; return parent[x]`:
the recursive call rewrites the tail of the chain, then `x`'s own link is
set to the discovered root.  Returns the rewritten parent array and the
root. -/
def findAux : Nat → List Nat → Nat → List Nat × Nat
  | 0, p, x => (p, x)
  | fuel+1, p, x =>
    let px := parentOf p x
    if px = x then (p, x)
    else
      let pr := findAux fuel p px
      (pr.1.set x pr.2, pr.2)

def UnionFind.Find (uf : UnionFind) (x : Nat) : UnionFind × Nat :=
  let pr := findAux uf.parent.length uf.parent x
  ({ uf with parent := pr.1 }, pr.2)

def UnionFind.Union (uf : UnionFind) (x y : Nat) : UnionFind × Bool :=
  let f1 := uf.Find x
  let f2 := f1.1.Find y
  let rootX := f1.2
  let rootY := f2.2
  let uf2 := f2.1
  if rootX = rootY then
    (uf2, false)
  else
    let rkX := uf2.rank.getD rootX 0
    let rkY := uf2.rank.getD rootY 0
    let uf3 :=
      if rkX < rkY then
        { uf2 with parent := uf2.parent.set rootX rootY }
      else if rkY < rkX then
        { uf2 with parent := uf2.parent.set rootY rootX }
      else
        { uf2 with parent := uf2.parent.set rootY rootX,
                   rank := uf2.rank.set rootX (rkX + 1) }
    ({ uf3 with count := uf3.count - 1 }, true)

def UnionFind.Connected (uf : UnionFind) (x y : Nat) : UnionFind × Bool :=
  let f1 := uf.Find x
  let f2 := f1.1.Find y
  (f2.1, f1.2 == f2.2)

def UnionFind.ComponentCount (uf : UnionFind) : Int := uf.count

/-! ### Specification-level view of the union-find partition

`rootD` walks parent links without mutating, fuel-indexed; `rootOf` uses
fuel `parent.length`, which reaches the root on any well-formed array.
`UFWF` is the well-formedness invariant: entries in range and every chain
reaching an actual root within `length` steps. -/

def rootD : Nat → List Nat → Nat → Nat
  | 0, _, x => x
  | fuel+1, p, x => if parentOf p x = x then x else rootD fuel p (parentOf p x)

def isRootP (p : List Nat) (x : Nat) : Prop := parentOf p x = x

instance (p : List Nat) (x : Nat) : Decidable (isRootP p x) := by
  unfold isRootP; infer_instance

def rootOf (p : List Nat) (x : Nat) : Nat := rootD p.length p x

def sameRoot (p : List Nat) (a b : Nat) : Prop := rootOf p a = rootOf p b

instance (p : List Nat) (a b : Nat) : Decidable (sameRoot p a b) := by
  unfold sameRoot; infer_instance

def UFWF (p : List Nat) : Prop :=
  ∀ x, x < p.length → p.getD x 0 < p.length ∧ isRootP p (rootD p.length p x)

instance (p : List Nat) : Decidable (UFWF p) := by
  unfold UFWF; exact Nat.decidableBallLT _ _

/-! ### Basic lemmas about `rootD` -/

theorem parentOf_out (p : List Nat) (x : Nat) (h : p.length ≤ x) :
    parentOf p x = x := by
  unfold parentOf
  rw [List.getD_eq_default]
  omega

theorem parentOf_lt (p : List Nat) (x : Nat) (h : parentOf p x ≠ x) :
    x < p.length := by
  by_contra hx
  exact h (parentOf_out p x (by omega))

theorem rootD_of_isRoot {p : List Nat} {x : Nat} (h : isRootP p x) :
    ∀ fuel, rootD fuel p x = x := by
  intro fuel
  unfold isRootP at h
  cases fuel with
  | zero => rfl
  | succ f => simp [rootD, h]

theorem rootD_succ_of_isRoot {p : List Nat} (fuel : Nat) (x : Nat)
    (h : isRootP p (rootD fuel p x)) :
    rootD (fuel + 1) p x = rootD fuel p x := by
  induction fuel generalizing x with
  | zero =>
    simp only [rootD] at h ⊢
    unfold isRootP at h
    simp [h]
  | succ f ih =>
    by_cases hx : parentOf p x = x
    · simp [rootD, hx]
    · simp only [rootD, if_neg hx] at h ⊢
      exact ih (parentOf p x) h

theorem rootD_add_of_isRoot {p : List Nat} (fuel k : Nat) (x : Nat)
    (h : isRootP p (rootD fuel p x)) :
    rootD (fuel + k) p x = rootD fuel p x := by
  induction k with
  | zero => rfl
  | succ m ih =>
    have h2 : isRootP p (rootD (fuel + m) p x) := by rw [ih]; exact h
    have := rootD_succ_of_isRoot (fuel + m) x h2
    calc rootD (fuel + (m+1)) p x = rootD ((fuel + m) + 1) p x := by ring_nf
      _ = rootD (fuel + m) p x := this
      _ = rootD fuel p x := ih

/-- Whenever two fuels both land on genuine roots, they land on the same
root (there is only one chain). -/
theorem rootD_unique {p : List Nat} {f g : Nat} {x : Nat}
    (hf : isRootP p (rootD f p x)) (hg : isRootP p (rootD g p x)) :
    rootD f p x = rootD g p x := by
  rcases Nat.le_total f g with h | h
  · obtain ⟨k, rfl⟩ := Nat.exists_eq_add_of_le h
    rw [rootD_add_of_isRoot f k x hf]
  · obtain ⟨k, rfl⟩ := Nat.exists_eq_add_of_le h
    rw [rootD_add_of_isRoot g k x hg]

theorem rootD_out (p : List Nat) (fuel x : Nat) (h : p.length ≤ x) :
    rootD fuel p x = x := by
  cases fuel with
  | zero => rfl
  | succ f => simp [rootD, parentOf_out p x h]

theorem isRoot_rootOf {p : List Nat} (hwf : UFWF p) (x : Nat) :
    isRootP p (rootOf p x) := by
  by_cases hx : x < p.length
  · exact (hwf x hx).2
  · unfold rootOf
    rw [rootD_out p _ x (by omega)]
    unfold isRootP
    exact parentOf_out p x (by omega)

theorem rootOf_eq_rootD {p : List Nat} (hwf : UFWF p) {fuel x : Nat}
    (h : isRootP p (rootD fuel p x)) :
    rootOf p x = rootD fuel p x :=
  rootD_unique (isRoot_rootOf hwf x) h

/-- Stepping once along a non-root link keeps the same root. -/
theorem rootOf_parent {p : List Nat} (hwf : UFWF p) {x : Nat}
    (hx : ¬ isRootP p x) :
    rootOf p (parentOf p x) = rootOf p x := by
  have hlt : x < p.length := parentOf_lt p x hx
  have hlen : 1 ≤ p.length := by omega
  obtain ⟨n, hn⟩ : ∃ n, p.length = n + 1 := ⟨p.length - 1, by omega⟩
  have hroot : isRootP p (rootD p.length p x) := (hwf x hlt).2
  have hstep : rootD p.length p x = rootD n p (parentOf p x) := by
    rw [hn]; simp [rootD, hx, isRootP] at *
    tauto
  have hroot' : isRootP p (rootD n p (parentOf p x)) := by rw [← hstep]; exact hroot
  calc rootOf p (parentOf p x) = rootD n p (parentOf p x) :=
        rootOf_eq_rootD hwf hroot'
    _ = rootD p.length p x := hstep.symm
    _ = rootOf p x := rfl

theorem parentOf_lt_of_wf {p : List Nat} (hwf : UFWF p) {x : Nat}
    (hx : x < p.length) : parentOf p x < p.length := by
  have h1 := (hwf x hx).1
  unfold parentOf
  rw [List.getD_eq_getD_get?, List.get?_eq_getElem?, List.getElem?_eq_getElem hx,
    Option.getD_some]
  rw [List.getD_eq_getD_get?, List.get?_eq_getElem?, List.getElem?_eq_getElem hx,
    Option.getD_some] at h1
  exact h1

theorem rootD_lt {p : List Nat} (hwf : UFWF p) (fuel : Nat) :
    ∀ x, x < p.length → rootD fuel p x < p.length := by
  induction fuel with
  | zero => intro x hx; simpa [rootD] using hx
  | succ f ih =>
    intro x hx
    by_cases hr : parentOf p x = x
    · simpa [rootD, hr] using hx
    · simp only [rootD, if_neg hr]
      exact ih (parentOf p x) (parentOf_lt_of_wf hwf hx)

theorem rootOf_lt {p : List Nat} (hwf : UFWF p) {x : Nat} (hx : x < p.length) :
    rootOf p x < p.length := rootD_lt hwf p.length x hx

theorem rootOf_out (p : List Nat) (x : Nat) (h : p.length ≤ x) :
    rootOf p x = x := rootD_out p _ x h

/-! ### Rewriting one link

The two ways the code rewrites a parent link are (a) path compression,
which points a node at its own root, and (b) a merge, which points one
root at another root.  The next lemmas characterise the effect of each on
`rootOf`. -/

theorem parentOf_set_ne (p : List Nat) (x r y : Nat) (h : y ≠ x) :
    parentOf (p.set x r) y = parentOf p y := by
  unfold parentOf
  rw [List.getD_eq_getD_get?, List.getD_eq_getD_get?, List.get?_eq_getElem?,
    List.get?_eq_getElem?, List.getElem?_set_ne (by omega)]

theorem parentOf_set_self (p : List Nat) (x r : Nat) (hx : x < p.length) :
    parentOf (p.set x r) x = r := by
  unfold parentOf
  rw [List.getD_eq_getD_get?, List.get?_eq_getElem?, List.getElem?_set_self' ,
    List.getElem?_eq_getElem hx]
  rfl

theorem rootD_set_ne_all (p : List Nat) (x r : Nat)
    (hall : ∀ y, parentOf (p.set x r) y = parentOf p y) :
    ∀ fuel y, rootD fuel (p.set x r) y = rootD fuel p y := by
  intro fuel
  induction fuel with
  | zero => intro y; rfl
  | succ f ih =>
    intro y
    simp only [rootD, hall y]
    by_cases hy : parentOf p y = y
    · simp [hy]
    · simp only [if_neg hy]
      exact ih (parentOf p y)

/-- Path compression step: rewriting `x ↦ rootOf p x` preserves every
node's root (same fuel) and keeps roots genuine. -/
theorem rootD_compress {p : List Nat} {x r : Nat} (hwf : UFWF p)
    (hx : ¬ isRootP p x) (hr : rootOf p x = r) :
    ∀ fuel y, isRootP p (rootD fuel p y) →
      rootD fuel (p.set x r) y = rootD fuel p y ∧
      isRootP (p.set x r) (rootD fuel p y) := by
  have hxlen : x < p.length := parentOf_lt p x hx
  have hrroot : isRootP p r := hr ▸ isRoot_rootOf hwf x
  have hrx : r ≠ x := by
    intro h
    exact hx (h ▸ hrroot)
  -- a root other than x stays a root in the rewritten array
  have hkeep : ∀ z, isRootP p z → isRootP (p.set x r) z := by
    intro z hz
    have hzx : z ≠ x := fun h => hx (h ▸ hz)
    unfold isRootP
    rw [parentOf_set_ne p x r z hzx]
    exact hz
  intro fuel
  induction fuel with
  | zero =>
    intro y hy
    exact ⟨rfl, hkeep y hy⟩
  | succ f ih =>
    intro y hy
    by_cases hyroot : isRootP p y
    · rw [rootD_of_isRoot hyroot] at *
      constructor
      · rw [rootD_of_isRoot (hkeep y hyroot)]
      · exact hkeep y hyroot
    · by_cases hyx : y = x
      · rw [hyx] at hy ⊢
        -- the rewritten chain from x is the single step x ↦ r, with r a root
        have h1 : rootD (f+1) (p.set x r) x = r := by
          have hpx : parentOf (p.set x r) x = r := parentOf_set_self p x r hxlen
          simp only [rootD, hpx, if_neg hrx]
          exact rootD_of_isRoot (hkeep r hrroot) f
        have h2 : rootD (f+1) p x = r := by
          have := rootOf_eq_rootD hwf hy
          rw [← this, hr]
        rw [h1, h2]
        exact ⟨rfl, hkeep r hrroot⟩
      · -- step both chains once
        unfold isRootP at hyroot
        simp only [rootD, if_neg hyroot] at hy
        have hpy : parentOf (p.set x r) y = parentOf p y :=
          parentOf_set_ne p x r y hyx
        have hstep := ih (parentOf p y) hy
        have hyroot' : ¬ parentOf (p.set x r) y = y := by rw [hpy]; exact hyroot
        constructor
        · simp only [rootD, if_neg hyroot, if_neg hyroot', hpy]
          exact hstep.1
        · simp only [rootD, if_neg hyroot]
          exact hstep.2

theorem length_set_eq (p : List Nat) (x r : Nat) :
    (p.set x r).length = p.length := by simp

theorem getD_eq_of_lt (p : List Nat) (x d d' : Nat) (h : x < p.length) :
    p.getD x d = p.getD x d' := by
  rw [List.getD_eq_getD_get?, List.getD_eq_getD_get?, List.get?_eq_getElem?,
    List.getElem?_eq_getElem h]
  rfl

/-- Setting a root link to itself leaves the array unchanged. -/
theorem set_self_eq {p : List Nat} {x : Nat} (hx : isRootP p x) :
    p.set x x = p := by
  apply List.ext_get?
  intro n
  by_cases hn : n = x
  · subst hn
    by_cases hlen : n < p.length
    · rw [List.get?_eq_getElem?, List.get?_eq_getElem?, List.getElem?_set_self',
        List.getElem?_eq_getElem hlen]
      unfold isRootP parentOf at hx
      rw [List.getD_eq_getD_get?, List.get?_eq_getElem?,
        List.getElem?_eq_getElem hlen, Option.getD_some] at hx
      simp [hx]
    · rw [List.get?_eq_getElem?, List.get?_eq_getElem?, List.getElem?_set_self']
      rw [List.getElem?_eq_none (by omega)]
      rfl
  · rw [List.get?_eq_getElem?, List.get?_eq_getElem?, List.getElem?_set_ne (by omega)]

/-- Path compression, packaged: roots of every node unchanged, and the
rewritten array is well-formed again. -/
theorem compress_spec {p : List Nat} {x r : Nat} (hwf : UFWF p)
    (hr : rootOf p x = r) :
    (∀ y, rootOf (p.set x r) y = rootOf p y) ∧ UFWF (p.set x r) := by
  by_cases hx : isRootP p x
  · -- x is already a root, so r = x and the write is the identity
    have hrx : r = x := by rw [← hr, @rootOf_eq_rootD p hwf 0 x hx]; rfl
    rw [hrx, set_self_eq hx]
    exact ⟨fun _ => rfl, hwf⟩
  · have hmain := rootD_compress hwf hx hr
    have hlen : (p.set x r).length = p.length := length_set_eq p x r
    have hxlen : x < p.length := parentOf_lt p x hx
    constructor
    · intro y
      by_cases hylen : y < p.length
      · have h1 := hmain p.length y (hwf y hylen).2
        unfold rootOf
        rw [hlen]
        exact h1.1
      · unfold rootOf
        rw [hlen, rootD_out _ _ y (by omega), rootD_out _ _ y (by omega)]
    · intro y hy
      rw [hlen] at hy ⊢
      refine ⟨?_, ?_⟩
      · -- entries stay in range: the only new entry is r = rootOf p x < length
        by_cases hyx : y = x
        · have hval : (p.set x r).getD y 0 = r := by
            rw [hyx, List.getD_eq_getD_get?, List.get?_eq_getElem?,
              List.getElem?_set_self', List.getElem?_eq_getElem hxlen]
            rfl
          rw [hval, ← hr]
          exact rootOf_lt hwf hxlen
        · have hval : (p.set x r).getD y 0 = p.getD y 0 := by
            rw [List.getD_eq_getD_get?, List.getD_eq_getD_get?, List.get?_eq_getElem?,
              List.get?_eq_getElem?, List.getElem?_set_ne (by omega)]
          rw [hval]
          exact (hwf y hy).1
      · have h1 := hmain p.length y (hwf y hy).2
        rw [h1.1]
        exact h1.2

/-! ### Chains are strictly shorter than the array

On a well-formed array every chain visits pairwise distinct nodes, so the
root is reached within `length - 1` steps.  This gives the one unit of
slack needed when a merge makes chains one step longer. -/

theorem rootD_step {p : List Nat} {x : Nat} (h : ¬ parentOf p x = x)
    (f : Nat) : rootD (f + 1) p x = rootD f p (parentOf p x) := by
  simp only [rootD, if_neg h]

theorem rootD_comp (p : List Nat) (i k y : Nat) :
    rootD (i + k) p y = rootD k p (rootD i p y) := by
  induction i generalizing y with
  | zero => rw [Nat.zero_add]; rfl
  | succ m ih =>
    by_cases hy : parentOf p y = y
    · have hyr : isRootP p y := hy
      rw [rootD_of_isRoot hyr, rootD_of_isRoot hyr]
      exact (rootD_of_isRoot hyr k).symm
    · have h1 : m + 1 + k = (m + k) + 1 := by omega
      rw [h1, rootD_step hy (m + k), rootD_step hy m, ih (parentOf p y)]

theorem rootD_pred {p : List Nat} (hwf : UFWF p) (y : Nat)
    (hy : y < p.length) : isRootP p (rootD (p.length - 1) p y) := by
  have hex : ∃ f, isRootP p (rootD f p y) := ⟨p.length, (hwf y hy).2⟩
  classical
  set l := Nat.find hex with hl
  have hspec : isRootP p (rootD l p y) := Nat.find_spec hex
  have hmin : ∀ f, f < l → ¬ isRootP p (rootD f p y) := fun f hf => Nat.find_min hex hf
  have hln : l ≤ p.length := Nat.find_min' hex (hwf y hy).2
  -- the first l+1 nodes of the chain are pairwise distinct
  have hinj : Function.Injective (fun i : Fin (l + 1) =>
      (⟨rootD i.1 p y, rootD_lt hwf i.1 y hy⟩ : Fin p.length)) := by
    intro i j hij
    simp only [Fin.mk.injEq] at hij
    by_contra hne
    have hne' : i.1 ≠ j.1 := fun h => hne (Fin.ext h)
    -- symmetric in i and j; assume i < j
    rcases Nat.lt_or_ge i.1 j.1 with hlt | hge
    · have hjl : j.1 ≤ l := by omega
      have h1 : rootD (j.1 + (l - j.1)) p y = rootD l p y := by
        congr 1; omega
      have h2 : isRootP p (rootD (l - j.1) p (rootD i.1 p y)) := by
        rw [hij, ← rootD_comp, h1]
        exact hspec
      rw [← rootD_comp] at h2
      have : i.1 + (l - j.1) < l := by omega
      exact hmin _ this h2
    · have hlt : j.1 < i.1 := by omega
      have hil : i.1 ≤ l := by omega
      have h1 : rootD (i.1 + (l - i.1)) p y = rootD l p y := by
        congr 1; omega
      have h2 : isRootP p (rootD (l - i.1) p (rootD j.1 p y)) := by
        rw [← hij, ← rootD_comp, h1]
        exact hspec
      rw [← rootD_comp] at h2
      have : j.1 + (l - i.1) < l := by omega
      exact hmin _ this h2
  have hcard : l + 1 ≤ p.length := by
    have := Fintype.card_le_of_injective _ hinj
    simpa using this
  have hstep : l ≤ p.length - 1 := by omega
  obtain ⟨k, hk⟩ := Nat.exists_eq_add_of_le hstep
  rw [hk, rootD_add_of_isRoot l k y hspec]
  exact hspec

/-! ### `findAux` meets its specification -/

theorem findAux_spec : ∀ (fuel : Nat) (p : List Nat) (x : Nat), UFWF p →
    isRootP p (rootD fuel p x) →
    (findAux fuel p x).2 = rootD fuel p x ∧
    (∀ y, rootOf (findAux fuel p x).1 y = rootOf p y) ∧
    UFWF (findAux fuel p x).1 ∧
    (findAux fuel p x).1.length = p.length := by
  intro fuel
  induction fuel with
  | zero =>
    intro p x hwf _
    exact ⟨rfl, fun _ => rfl, hwf, rfl⟩
  | succ f ih =>
    intro p x hwf hroot
    by_cases hx : parentOf p x = x
    · have hfa : findAux (f + 1) p x = (p, x) := by
        simp only [findAux, if_pos hx]
      rw [hfa]
      exact ⟨(rootD_of_isRoot hx (f + 1)).symm, fun _ => rfl, hwf, rfl⟩
    · have hroot' : isRootP p (rootD f p (parentOf p x)) := by
        simpa only [rootD, if_neg hx] using hroot
      have hIH := ih p (parentOf p x) hwf hroot'
      simp only [findAux, if_neg hx]
      set pr := findAux f p (parentOf p x) with hpr
      have hrt : pr.2 = rootD f p (parentOf p x) := hIH.1
      have hroots0 : ∀ y, rootOf pr.1 y = rootOf p y := hIH.2.1
      have hwf0 : UFWF pr.1 := hIH.2.2.1
      have hlen0 : pr.1.length = p.length := hIH.2.2.2
      -- the final write is a compression step on pr.1
      have hrx : rootOf pr.1 x = pr.2 := by
        rw [hroots0 x, hrt]
        have h1 : rootOf p x = rootD (f + 1) p x := rootOf_eq_rootD hwf hroot
        rw [h1]
        simp only [rootD, if_neg hx]
      have hcomp := compress_spec hwf0 hrx
      refine ⟨?_, ?_, hcomp.2, ?_⟩
      · simp only [rootD, if_neg hx]
        exact hrt
      · intro y
        rw [hcomp.1 y, hroots0 y]
      · rw [length_set_eq, hlen0]

/-- Linking root `a` beneath root `b`: every node previously rooted at `a`
is now rooted at `b`; all other roots are untouched; well-formedness is
preserved. -/
theorem link_spec {p : List Nat} {a b : Nat} (hwf : UFWF p)
    (ha : isRootP p a) (hb : isRootP p b) (hab : a ≠ b)
    (halen : a < p.length) (hblen : b < p.length) :
    (∀ y, rootOf (p.set a b) y =
      if rootOf p y = a then b else rootOf p y) ∧
    UFWF (p.set a b) := by
  have hn1 : 1 ≤ p.length := by omega
  have hpa : parentOf (p.set a b) a = b := parentOf_set_self p a b halen
  have hba : b ≠ a := fun h => hab h.symm
  have hkeep : ∀ z, isRootP p z → z ≠ a → isRootP (p.set a b) z := by
    intro z hz hza
    unfold isRootP
    rw [parentOf_set_ne p a b z hza]
    exact hz
  have hqb : isRootP (p.set a b) b := hkeep b hb hba
  -- one extra fuel absorbs the extra hop through the moved root
  have hfuel : ∀ f y, isRootP p (rootD f p y) →
      rootD (f + 1) (p.set a b) y =
        (if rootD f p y = a then b else rootD f p y) ∧
      isRootP (p.set a b) (rootD (f + 1) (p.set a b) y) := by
    intro f
    have hane : ¬ parentOf (p.set a b) a = a := by rw [hpa]; exact hba
    induction f with
    | zero =>
      intro y hy
      by_cases hya : y = a
      · subst hya
        have h1 : rootD 1 (p.set y b) y = b := by
          rw [rootD_step hane 0, hpa]
          exact rootD_of_isRoot hqb 0
        rw [h1]
        have h2 : rootD 0 p y = y := rfl
        rw [h2, if_pos rfl]
        exact ⟨rfl, hqb⟩
      · have hq : isRootP (p.set a b) y := hkeep y hy hya
        rw [rootD_of_isRoot hq]
        have h2 : rootD 0 p y = y := rfl
        rw [h2, if_neg hya]
        exact ⟨rfl, hq⟩
    | succ f ih =>
      intro y hy
      by_cases hyroot : isRootP p y
      · rw [rootD_of_isRoot hyroot] at hy ⊢
        by_cases hya : y = a
        · subst hya
          have h1 : rootD (f + 1 + 1) (p.set y b) y = b := by
            rw [rootD_step hane (f + 1), hpa]
            exact rootD_of_isRoot hqb _
          rw [h1, if_pos rfl]
          exact ⟨rfl, hqb⟩
        · have hq : isRootP (p.set a b) y := hkeep y hyroot hya
          rw [rootD_of_isRoot hq, if_neg hya]
          exact ⟨rfl, hq⟩
      · have hya : y ≠ a := fun h => hyroot (h ▸ ha)
        have hystep : ¬ parentOf p y = y := hyroot
        have hy' : isRootP p (rootD f p (parentOf p y)) := by
          rw [rootD_step hystep f] at hy
          exact hy
        have hqstep : ¬ parentOf (p.set a b) y = y := by
          rw [parentOf_set_ne p a b y hya]
          exact hystep
        have hIH := ih (parentOf p y) hy'
        rw [rootD_step hqstep (f + 1), rootD_step hystep f,
          parentOf_set_ne p a b y hya]
        exact hIH
  have hlen : (p.set a b).length = p.length := length_set_eq p a b
  have hmain : ∀ y, y < p.length →
      rootD p.length (p.set a b) y =
        (if rootOf p y = a then b else rootOf p y) ∧
      isRootP (p.set a b) (rootD p.length (p.set a b) y) := by
    intro y hy
    have hpred : isRootP p (rootD (p.length - 1) p y) := rootD_pred hwf y hy
    have h1 := hfuel (p.length - 1) y hpred
    have h2 : p.length - 1 + 1 = p.length := by omega
    rw [h2] at h1
    have h3 : rootD (p.length - 1) p y = rootOf p y :=
      (rootOf_eq_rootD hwf hpred).symm
    rw [h3] at h1
    exact h1
  constructor
  · intro y
    by_cases hy : y < p.length
    · have := (hmain y hy).1
      unfold rootOf
      rw [hlen]
      exact this
    · unfold rootOf
      rw [hlen, rootD_out _ _ y (by omega), rootD_out p _ y (by omega)]
      have : ¬ (y = a) := by omega
      simp [rootOf, rootD_out p _ y (by omega), this]
  · intro y hy
    rw [hlen] at hy ⊢
    refine ⟨?_, ?_⟩
    · by_cases hya : y = a
      · have hval : (p.set a b).getD y 0 = b := by
          rw [hya, List.getD_eq_getD_get?, List.get?_eq_getElem?,
            List.getElem?_set_self', List.getElem?_eq_getElem halen]
          rfl
        rw [hval]
        exact hblen
      · have hval : (p.set a b).getD y 0 = p.getD y 0 := by
          rw [List.getD_eq_getD_get?, List.getD_eq_getD_get?, List.get?_eq_getElem?,
            List.get?_eq_getElem?, List.getElem?_set_ne (by omega)]
        rw [hval]
        exact (hwf y hy).1
    · exact (hmain y hy).2

/-! ### Specifications of the `UnionFind` operations -/

theorem rootOf_root {p : List Nat} (hwf : UFWF p) {z : Nat}
    (hz : isRootP p z) : rootOf p z = z :=
  (@rootOf_eq_rootD p hwf 0 z hz).trans rfl

theorem Find_full (uf : UnionFind) (x : Nat) (hwf : UFWF uf.parent) :
    (uf.Find x).2 = rootOf uf.parent x ∧
    (∀ y, rootOf (uf.Find x).1.parent y = rootOf uf.parent y) ∧
    UFWF (uf.Find x).1.parent ∧
    (uf.Find x).1.parent.length = uf.parent.length ∧
    (uf.Find x).1.rank = uf.rank ∧ (uf.Find x).1.count = uf.count := by
  have h := findAux_spec uf.parent.length uf.parent x hwf (isRoot_rootOf hwf x)
  exact ⟨h.1, h.2.1, h.2.2.1, h.2.2.2, rfl, rfl⟩

theorem Connected_full (uf : UnionFind) (x y : Nat) (hwf : UFWF uf.parent) :
    (uf.Connected x y).2 = (rootOf uf.parent x == rootOf uf.parent y) ∧
    (∀ z, rootOf (uf.Connected x y).1.parent z = rootOf uf.parent z) ∧
    UFWF (uf.Connected x y).1.parent ∧
    (uf.Connected x y).1.parent.length = uf.parent.length ∧
    (uf.Connected x y).1.rank = uf.rank ∧
    (uf.Connected x y).1.count = uf.count := by
  obtain ⟨hFx2, hFxroots, hFxwf, hFxlen, hFxrank, hFxcount⟩ := Find_full uf x hwf
  obtain ⟨hFy2, hFyroots, hFywf, hFylen, hFyrank, hFycount⟩ :=
    Find_full (uf.Find x).1 y hFxwf
  refine ⟨?_, ?_, hFywf, hFylen.trans hFxlen, hFyrank.trans hFxrank,
    hFycount.trans hFxcount⟩
  · show ((uf.Find x).2 == ((uf.Find x).1.Find y).2) = _
    rw [hFx2, hFy2, hFxroots y]
  · intro z
    show rootOf ((uf.Find x).1.Find y).1.parent z = _
    rw [hFyroots z, hFxroots z]

theorem Union_full (uf : UnionFind) (x y : Nat) (hwf : UFWF uf.parent)
    (hx : x < uf.parent.length) (hy : y < uf.parent.length) :
    UFWF (uf.Union x y).1.parent ∧
    (uf.Union x y).1.parent.length = uf.parent.length ∧
    (rootOf uf.parent x = rootOf uf.parent y →
      (uf.Union x y).2 = false ∧
      (uf.Union x y).1.count = uf.count ∧
      (uf.Union x y).1.rank = uf.rank ∧
      ∀ z, rootOf (uf.Union x y).1.parent z = rootOf uf.parent z) ∧
    (rootOf uf.parent x ≠ rootOf uf.parent y →
      (uf.Union x y).2 = true ∧
      (uf.Union x y).1.count = uf.count - 1 ∧
      (∃ a b, a ≠ b ∧
        ((a = rootOf uf.parent x ∧ b = rootOf uf.parent y) ∨
         (a = rootOf uf.parent y ∧ b = rootOf uf.parent x)) ∧
        rootOf (uf.Union x y).1.parent x = b ∧
        (∀ z, rootOf (uf.Union x y).1.parent z =
          if rootOf uf.parent z = a then b else rootOf uf.parent z)) ∧
      (uf.rank.getD (rootOf uf.parent x) 0 < uf.rank.getD (rootOf uf.parent y) 0 →
        parentOf (uf.Union x y).1.parent (rootOf uf.parent x) = rootOf uf.parent y ∧
        (uf.Union x y).1.rank = uf.rank) ∧
      (uf.rank.getD (rootOf uf.parent y) 0 < uf.rank.getD (rootOf uf.parent x) 0 →
        parentOf (uf.Union x y).1.parent (rootOf uf.parent y) = rootOf uf.parent x ∧
        (uf.Union x y).1.rank = uf.rank) ∧
      (uf.rank.getD (rootOf uf.parent x) 0 = uf.rank.getD (rootOf uf.parent y) 0 →
        parentOf (uf.Union x y).1.parent (rootOf uf.parent y) = rootOf uf.parent x ∧
        (uf.Union x y).1.rank =
          uf.rank.set (rootOf uf.parent x) (uf.rank.getD (rootOf uf.parent x) 0 + 1))) := by
  obtain ⟨hFx2, hFxroots, hFxwf, hFxlen, hFxrank, hFxcount⟩ := Find_full uf x hwf
  obtain ⟨hFy2, hFyroots, hFywf, hFylen, hFyrank, hFycount⟩ :=
    Find_full (uf.Find x).1 y hFxwf
  set rx := rootOf uf.parent x with hrxdef
  set ry := rootOf uf.parent y with hrydef
  set uf2 := ((uf.Find x).1.Find y).1 with huf2
  have hFy2' : ((uf.Find x).1.Find y).2 = ry := by rw [hFy2, hFxroots y]
  have hroots2 : ∀ z, rootOf uf2.parent z = rootOf uf.parent z := fun z =>
    (hFyroots z).trans (hFxroots z)
  have hlen2 : uf2.parent.length = uf.parent.length := hFylen.trans hFxlen
  have hrank2 : uf2.rank = uf.rank := hFyrank.trans hFxrank
  have hcount2 : uf2.count = uf.count := hFycount.trans hFxcount
  have hrxroot : isRootP uf.parent rx := isRoot_rootOf hwf x
  have hryroot : isRootP uf.parent ry := isRoot_rootOf hwf y
  have hrxlen : rx < uf.parent.length := rootOf_lt hwf hx
  have hrylen : ry < uf.parent.length := rootOf_lt hwf hy
  have hrx2 : isRootP uf2.parent rx := by
    have h1 : rootOf uf2.parent rx = rx := (hroots2 rx).trans (rootOf_root hwf hrxroot)
    have h2 := isRoot_rootOf hFywf rx
    rwa [h1] at h2
  have hry2 : isRootP uf2.parent ry := by
    have h1 : rootOf uf2.parent ry = ry := (hroots2 ry).trans (rootOf_root hwf hryroot)
    have h2 := isRoot_rootOf hFywf ry
    rwa [h1] at h2
  have hrxlen2 : rx < uf2.parent.length := by rw [hlen2]; exact hrxlen
  have hrylen2 : ry < uf2.parent.length := by rw [hlen2]; exact hrylen
  have hrootx : rootOf uf.parent rx = rx := rootOf_root hwf hrxroot
  by_cases hxy : rx = ry
  · have hres : uf.Union x y = (uf2, false) := by
      simp only [UnionFind.Union]
      rw [hFx2, hFy2', if_pos hxy]
    rw [hres]
    refine ⟨hFywf, hlen2, fun _ => ⟨rfl, hcount2, hrank2, hroots2⟩, fun h => absurd hxy h⟩
  · -- a merge happens; three rank branches
    have hrkeq : uf2.rank = uf.rank := hrank2
    by_cases hrk1 : uf.rank.getD rx 0 < uf.rank.getD ry 0
    · have hres : uf.Union x y =
          (UnionFind.mk (uf2.parent.set rx ry) uf2.rank (uf2.count - 1), true) := by
        simp only [UnionFind.Union]
        rw [hFx2, hFy2', if_neg hxy, hrkeq, if_pos hrk1]
      rw [hres]
      obtain ⟨hsub, hwf'⟩ := link_spec hFywf hrx2 hry2 hxy hrxlen2 hrylen2
      have hsub' : ∀ z, rootOf (uf2.parent.set rx ry) z =
          if rootOf uf.parent z = rx then ry else rootOf uf.parent z := by
        intro z
        rw [hsub z, hroots2 z]
      refine ⟨hwf', (length_set_eq _ _ _).trans hlen2, fun h => absurd h hxy,
        fun _ => ⟨rfl, ?_, ?_, ?_, ?_, ?_⟩⟩
      · show uf2.count - 1 = uf.count - 1
        rw [hcount2]
      · refine ⟨rx, ry, hxy, Or.inl ⟨rfl, rfl⟩, ?_, hsub'⟩
        rw [hsub' x]
        simp
      · intro _
        exact ⟨parentOf_set_self _ _ _ hrxlen2, hrkeq⟩
      · intro hgt
        omega
      · intro heq
        omega
    · by_cases hrk2 : uf.rank.getD ry 0 < uf.rank.getD rx 0
      · have hres : uf.Union x y =
            (UnionFind.mk (uf2.parent.set ry rx) uf2.rank (uf2.count - 1), true) := by
          simp only [UnionFind.Union]
          rw [hFx2, hFy2', if_neg hxy, hrkeq, if_neg hrk1, if_pos hrk2]
        rw [hres]
        have hyx : ry ≠ rx := fun h => hxy h.symm
        obtain ⟨hsub, hwf'⟩ := link_spec hFywf hry2 hrx2 hyx hrylen2 hrxlen2
        have hsub' : ∀ z, rootOf (uf2.parent.set ry rx) z =
            if rootOf uf.parent z = ry then rx else rootOf uf.parent z := by
          intro z
          rw [hsub z, hroots2 z]
        refine ⟨hwf', (length_set_eq _ _ _).trans hlen2, fun h => absurd h hxy,
          fun _ => ⟨rfl, ?_, ?_, ?_, ?_, ?_⟩⟩
        · show uf2.count - 1 = uf.count - 1
          rw [hcount2]
        · refine ⟨ry, rx, hyx, Or.inr ⟨rfl, rfl⟩, ?_, hsub'⟩
          rw [hsub' x]
          simp only [← hrxdef, if_neg hxy]
        · intro hlt
          omega
        · intro _
          exact ⟨parentOf_set_self _ _ _ hrylen2, hrkeq⟩
        · intro heq
          omega
      · have heq : uf.rank.getD rx 0 = uf.rank.getD ry 0 := by omega
        have hres : uf.Union x y =
            (UnionFind.mk (uf2.parent.set ry rx)
              (uf2.rank.set rx (uf2.rank.getD rx 0 + 1)) (uf2.count - 1), true) := by
          simp only [UnionFind.Union]
          rw [hFx2, hFy2', if_neg hxy, hrkeq, if_neg hrk1, if_neg hrk2]
        rw [hres]
        have hyx : ry ≠ rx := fun h => hxy h.symm
        obtain ⟨hsub, hwf'⟩ := link_spec hFywf hry2 hrx2 hyx hrylen2 hrxlen2
        have hsub' : ∀ z, rootOf (uf2.parent.set ry rx) z =
            if rootOf uf.parent z = ry then rx else rootOf uf.parent z := by
          intro z
          rw [hsub z, hroots2 z]
        refine ⟨hwf', (length_set_eq _ _ _).trans hlen2, fun h => absurd h hxy,
          fun _ => ⟨rfl, ?_, ?_, ?_, ?_, ?_⟩⟩
        · show uf2.count - 1 = uf.count - 1
          rw [hcount2]
        · refine ⟨ry, rx, hyx, Or.inr ⟨rfl, rfl⟩, ?_, hsub'⟩
          rw [hsub' x]
          simp only [← hrxdef, if_neg hxy]
        · intro hlt
          omega
        · intro hgt
          omega
        · intro _
          refine ⟨parentOf_set_self _ _ _ hrylen2, ?_⟩
          show uf2.rank.set rx (uf2.rank.getD rx 0 + 1) = _
          rw [hrkeq]

/-! ### Board (pkg/island/board.go)

`Width`/`Height` are sizes (`Nat`); coordinates are Go `int`s (`Int`),
since `GetTile` explicitly handles negative input.  The flat tile slice is
row-major with index `y*Width + x`. -/

structure Board where
  Width : Nat
  Height : Nat
  Tiles : List Tile
  UnionFind : UnionFind
  Islands : List Nat
deriving DecidableEq, Repr

def NewBoard (width height : Nat) : Board :=
  { Width := width
    Height := height
    Tiles := List.replicate (width * height) { type := TileType.TileSea }
    UnionFind := NewUnionFind (width * height)
    Islands := [] }

def Board.GetTile (b : Board) (x y : Int) : Option Tile :=
  if x < 0 ∨ (b.Width : Int) ≤ x ∨ y < 0 ∨ (b.Height : Int) ≤ y then none
  else b.Tiles.get? (y.toNat * b.Width + x.toNat)

def Board.SetTile (b : Board) (x y : Int) (tileType : TileType) : Board :=
  if x < 0 ∨ (b.Width : Int) ≤ x ∨ y < 0 ∨ (b.Height : Int) ≤ y then b
  else
    let idx := y.toNat * b.Width + x.toNat
    let b1 := { b with Tiles := b.Tiles.set idx { type := tileType } }
    if tileType = TileType.TileLand then
      { b1 with Islands := b1.Islands ++ [idx] }
    else b1

/-- The four orthogonal directions, in the order the Go code iterates
them: `{0,1},{1,0},{0,-1},{-1,0}`. -/
def directions : List (Int × Int) := [(0, 1), (1, 0), (0, -1), (-1, 0)]

def isLandOrBridge (t : Tile) : Bool :=
  t.type = TileType.TileLand ∨ t.type = TileType.TileBridge

/-- Go's `neighbor != nil && (neighbor.Type == TileLand || neighbor.Type ==
TileBridge)`. -/
def neighborOk : Option Tile → Bool
  | some neighbor => isLandOrBridge neighbor
  | none => false

def Board.CanBuildBridge (b : Board) (x y : Int) : Bool :=
  match b.GetTile x y with
  | none => false
  | some tile =>
    if tile.type ≠ TileType.TileSea then false
    else
      -- the Go loop sets hasConnection and breaks; `List.any` is the same
      directions.any fun dir => neighborOk (b.GetTile (x + dir.1) (y + dir.2))

/-- One iteration of the bridge-building loop body. -/
def buildStep (x y : Int) (idx : Nat) (bb : Board) (dir : Int × Int) : Board :=
  if neighborOk (bb.GetTile (x + dir.1) (y + dir.2)) then
    let nidx := (y + dir.2).toNat * bb.Width + (x + dir.1).toNat
    { bb with UnionFind := (bb.UnionFind.Union idx nidx).1 }
  else bb

def Board.BuildBridge (b : Board) (x y : Int) : Board :=
  if b.CanBuildBridge x y then
    let b1 := b.SetTile x y TileType.TileBridge
    let idx := y.toNat * b.Width + x.toNat
    directions.foldl (buildStep x y idx) b1
  else b

/-- The Go `IsAllConnected` loop, threading the union-find state mutated
by path compression through the successive `Connected` calls and exiting
early on the first failure. -/
def allConnAux (uf : UnionFind) (first : Nat) : List Nat → Bool
  | [] => true
  | i :: rest =>
    let c := uf.Connected first i
    if c.2 then allConnAux c.1 first rest else false

def Board.IsAllConnected (b : Board) : Bool :=
  if b.Islands.length ≤ 1 then true
  else
    match b.Islands with
    | [] => true
    | first :: rest => allConnAux b.UnionFind first rest

def Board.SetupLevel1 (b : Board) : Board :=
  let b0 := { b with Tiles := b.Tiles.map fun _ => { type := TileType.TileSea },
                     Islands := [] }
  let b1 := b0.SetTile 1 1 TileType.TileLand
  let b2 := b1.SetTile 3 1 TileType.TileLand
  let b3 := b2.SetTile 2 3 TileType.TileLand
  { b3 with UnionFind := NewUnionFind (b3.Width * b3.Height) }

/-- The indices the bridge-building loop unions with: in-range orthogonal
neighbors currently holding Land or Bridge, in loop order. -/
def neighborProbe (b : Board) (x y : Int) (dir : Int × Int) : Option Nat :=
  if neighborOk (b.GetTile (x + dir.1) (y + dir.2)) then
    some ((y + dir.2).toNat * b.Width + (x + dir.1).toNat)
  else none

def neighborIdxList (b : Board) (x y : Int) : List Nat :=
  directions.filterMap (neighborProbe b x y)

/-- Invariants tying a board's pieces together: the tile slice and the
union-find arrays all have size `Width*Height` and the parent array is
well-formed.  `NewBoard` establishes them and every operation preserves
them. -/
def BoardWF (b : Board) : Prop :=
  b.Tiles.length = b.Width * b.Height ∧
  b.UnionFind.parent.length = b.Width * b.Height ∧
  b.UnionFind.rank.length = b.Width * b.Height ∧
  UFWF b.UnionFind.parent

instance (b : Board) : Decidable (BoardWF b) := by
  unfold BoardWF; infer_instance

/-! ### Achievements (pkg/achievements/achievements.go)

Durations are Go `time.Duration` values, embedded as `Int` nanoseconds.
Wall-clock timestamps only feed the play-streak day arithmetic
`int(now.Sub(last).Hours() / 24)`, so they are embedded as `Int` hours and
the day difference as truncated division by 24 (Go's `int()` float
conversion and Lean's `Int` division both truncate toward zero).
`time.Now()` becomes an explicit `now` argument threaded to the handlers.
The Go listener callbacks are side effects; they are embedded as `notified`,
the log of achievements passed to the listeners, in delivery order — one
entry per round of listener invocations. -/

inductive AchievementType where
  | AchievementFirstWin
  | AchievementSpeedrun
  | AchievementEfficient
  | AchievementTimeAttackWin
  | AchievementPerfectGame
  | AchievementBridgeBuilder
  | AchievementIslandHopper
  | AchievementLevelCreator
  | AchievementDedicated
  | AchievementMaster
deriving DecidableEq, Repr

open AchievementType

/-- All ten achievement ids, used to mirror iteration over the Go map
(only counting is ever done by iteration, so order is irrelevant). -/
def allAchievementTypes : List AchievementType :=
  [AchievementFirstWin, AchievementSpeedrun, AchievementEfficient,
   AchievementTimeAttackWin, AchievementPerfectGame, AchievementBridgeBuilder,
   AchievementIslandHopper, AchievementLevelCreator, AchievementDedicated,
   AchievementMaster]

structure Achievement where
  Name : String
  Description : String
  Icon : String
  Unlocked : Bool
  UnlockedAt : Option Int
  Progress : Int
  Target : Int
  Hidden : Bool
deriving DecidableEq, Repr

structure GameStatistics where
  GamesPlayed : Int
  GamesWon : Int
  TotalMoves : Int
  TotalTime : Int
  BestTime : Int
  FewestMoves : Int
  BridgesBuilt : Int
  TimeAttackWins : Int
  PerfectGames : Int
  LevelsCreated : Int
  PlayStreak : Int
  LastPlayDate : Option Int
deriving DecidableEq, Repr

structure AchievementSystem where
  achievements : AchievementType → Achievement
  statistics : GameStatistics
  notified : List AchievementType

def emptyAchievement : Achievement :=
  { Name := "", Description := "", Icon := "", Unlocked := false,
    UnlockedAt := none, Progress := 0, Target := 0, Hidden := false }

def initialAchievement : AchievementType → Achievement
  | AchievementFirstWin =>
    { emptyAchievement with
      Name := "First Victory",
      Description := "Win your first game", Icon := "trophy", Target := 1 }
  | AchievementSpeedrun =>
    { emptyAchievement with
      Name := "Speed Demon",
      Description := "Complete a level in under 30 seconds", Icon := "bolt",
      Target := 1 }
  | AchievementEfficient =>
    { emptyAchievement with
      Name := "Efficiency Expert",
      Description := "Complete a level with minimum moves", Icon := "dart",
      Target := 1 }
  | AchievementTimeAttackWin =>
    { emptyAchievement with
      Name := "Time Master",
      Description := "Win 5 Time Attack games", Icon := "clock", Target := 5 }
  | AchievementPerfectGame =>
    { emptyAchievement with
      Name := "Perfectionist",
      Description := "Achieve 10 perfect games", Icon := "gem", Target := 10 }
  | AchievementBridgeBuilder =>
    { emptyAchievement with
      Name := "Bridge Builder",
      Description := "Build 100 bridges", Icon := "bridge", Target := 100 }
  | AchievementIslandHopper =>
    { emptyAchievement with
      Name := "Island Hopper",
      Description := "Win 25 games", Icon := "island", Target := 25 }
  | AchievementLevelCreator =>
    { emptyAchievement with
      Name := "Level Designer",
      Description := "Create 5 levels in the editor", Icon := "palette",
      Target := 5 }
  | AchievementDedicated =>
    { emptyAchievement with
      Name := "Dedicated Player",
      Description := "Play for 7 consecutive days", Icon := "flame",
      Target := 7 }
  | AchievementMaster =>
    { emptyAchievement with
      Name := "Island Master",
      Description := "Unlock all other achievements", Icon := "crown",
      Target := 9, Hidden := true }

def NewAchievementSystem : AchievementSystem :=
  { achievements := initialAchievement
    statistics :=
      { GamesPlayed := 0, GamesWon := 0, TotalMoves := 0, TotalTime := 0,
        BestTime := 0, FewestMoves := 999, BridgesBuilt := 0,
        TimeAttackWins := 0, PerfectGames := 0, LevelsCreated := 0,
        PlayStreak := 0, LastPlayDate := none }
    notified := [] }

def updateAch (f : AchievementType → Achievement) (id : AchievementType)
    (a : Achievement) : AchievementType → Achievement :=
  fun i => if i = id then a else f i

def unlockedCountOthers (as : AchievementSystem) : Int :=
  ((allAchievementTypes.filter fun id =>
    id ≠ AchievementMaster ∧ (as.achievements id).Unlocked).length : Int)

/-- The unlock step of `checkAchievement` without the master cascade. -/
def checkAchievementBase (as : AchievementSystem) (id : AchievementType)
    (now : Int) : AchievementSystem :=
  let a := as.achievements id
  if a.Unlocked then as
  else if a.Target ≤ a.Progress then
    { as with
      achievements := updateAch as.achievements id
        { a with Unlocked := true, UnlockedAt := some now }
      notified := as.notified ++ [id] }
  else as

/-- `checkMasterAchievement`: recomputes the master's progress from the
live unlocked count and re-checks it.  In Go this calls `checkAchievement`,
whose own recursive `checkMasterAchievement` call is a guaranteed no-op
(the master is unlocked at that point), so the non-cascading
`checkAchievementBase` embeds that inner call exactly. -/
def checkMasterAchievement (as : AchievementSystem) (now : Int) :
    AchievementSystem :=
  let master := as.achievements AchievementMaster
  if master.Unlocked then as
  else
    let as1 := { as with
      achievements := updateAch as.achievements AchievementMaster
        { master with Progress := unlockedCountOthers as } }
    checkAchievementBase as1 AchievementMaster now

def checkAchievement (as : AchievementSystem) (id : AchievementType)
    (now : Int) : AchievementSystem :=
  let a := as.achievements id
  if a.Unlocked then as
  else if a.Target ≤ a.Progress then
    checkMasterAchievement
      { as with
        achievements := updateAch as.achievements id
          { a with Unlocked := true, UnlockedAt := some now }
        notified := as.notified ++ [id] }
      now
  else as

def setProgress (as : AchievementSystem) (id : AchievementType) (v : Int) :
    AchievementSystem :=
  { as with
    achievements := updateAch as.achievements id
      { as.achievements id with Progress := v } }

def OnGameStart (as : AchievementSystem) (now : Int) : AchievementSystem :=
  let st0 := as.statistics
  let st1 := { st0 with GamesPlayed := st0.GamesPlayed + 1 }
  let st2 :=
    match st1.LastPlayDate with
    | some last =>
      let daysSince := (now - last) / 24
      if daysSince = 1 then { st1 with PlayStreak := st1.PlayStreak + 1 }
      else if 1 < daysSince then { st1 with PlayStreak := 1 }
      else st1
    | none => { st1 with PlayStreak := 1 }
  let st3 := { st2 with LastPlayDate := some now }
  let as1 := { as with statistics := st3 }
  let as2 := setProgress as1 AchievementDedicated st3.PlayStreak
  checkAchievement as2 AchievementDedicated now

def timeSecond : Int := 1000000000

def OnGameWin (as : AchievementSystem) (moves gameTime : Int)
    (isTimeAttack isPerfect : Bool) (now : Int) : AchievementSystem :=
  let st0 := as.statistics
  let st1 := { st0 with
    GamesWon := st0.GamesWon + 1,
    TotalMoves := st0.TotalMoves + moves,
    TotalTime := st0.TotalTime + gameTime }
  let st2 := if st1.BestTime = 0 ∨ gameTime < st1.BestTime then
               { st1 with BestTime := gameTime } else st1
  let st3 := if moves < st2.FewestMoves then
               { st2 with FewestMoves := moves } else st2
  let as1 := { as with statistics := st3 }
  let as2 :=
    if isTimeAttack then
      let as1' := { as1 with statistics :=
        { as1.statistics with TimeAttackWins := as1.statistics.TimeAttackWins + 1 } }
      let as1'' := setProgress as1' AchievementTimeAttackWin
        as1'.statistics.TimeAttackWins
      checkAchievement as1'' AchievementTimeAttackWin now
    else as1
  let as3 :=
    if isPerfect then
      let as2' := { as2 with statistics :=
        { as2.statistics with PerfectGames := as2.statistics.PerfectGames + 1 } }
      let as2'' := setProgress as2' AchievementPerfectGame
        as2'.statistics.PerfectGames
      let as2''' := checkAchievement as2'' AchievementPerfectGame now
      checkAchievement as2''' AchievementEfficient now
    else as2
  let as4 := setProgress as3 AchievementFirstWin (min 1 as3.statistics.GamesWon)
  let as5 := checkAchievement as4 AchievementFirstWin now
  let as6 := setProgress as5 AchievementIslandHopper as5.statistics.GamesWon
  let as7 := checkAchievement as6 AchievementIslandHopper now
  if gameTime < 30 * timeSecond then
    let as8 := setProgress as7 AchievementSpeedrun 1
    checkAchievement as8 AchievementSpeedrun now
  else as7

def OnBridgeBuilt (as : AchievementSystem) (now : Int) : AchievementSystem :=
  let as1 := { as with statistics :=
    { as.statistics with BridgesBuilt := as.statistics.BridgesBuilt + 1 } }
  let as2 := setProgress as1 AchievementBridgeBuilder as1.statistics.BridgesBuilt
  checkAchievement as2 AchievementBridgeBuilder now

def OnLevelCreated (as : AchievementSystem) (now : Int) : AchievementSystem :=
  let as1 := { as with statistics :=
    { as.statistics with LevelsCreated := as.statistics.LevelsCreated + 1 } }
  let as2 := setProgress as1 AchievementLevelCreator as1.statistics.LevelsCreated
  checkAchievement as2 AchievementLevelCreator now

/-- One call to any of the four public event handlers. -/
inductive GameEvent where
  | gameStart (now : Int)
  | gameWin (moves gameTime : Int) (isTimeAttack isPerfect : Bool) (now : Int)
  | bridgeBuilt (now : Int)
  | levelCreated (now : Int)
deriving DecidableEq, Repr

def stepEvent (as : AchievementSystem) : GameEvent → AchievementSystem
  | GameEvent.gameStart now => OnGameStart as now
  | GameEvent.gameWin moves gameTime ta perf now =>
    OnGameWin as moves gameTime ta perf now
  | GameEvent.bridgeBuilt now => OnBridgeBuilt as now
  | GameEvent.levelCreated now => OnLevelCreated as now

def runEvents (es : List GameEvent) : AchievementSystem :=
  es.foldl stepEvent NewAchievementSystem

/-! ### Board lemmas -/

/-- Row-major indices of in-range cells stay below `Width * Height`. -/
theorem idx_lt {W H a c : Nat} (ha : a < H) (hc : c < W) :
    a * W + c < W * H :=
  calc a * W + c < a * W + W := by omega
    _ = (a + 1) * W := by ring
    _ ≤ H * W := Nat.mul_le_mul_right W (by omega)
    _ = W * H := Nat.mul_comm H W

theorem GetTile_inBounds {b : Board} {x y : Int} {t : Tile}
    (h : b.GetTile x y = some t) :
    0 ≤ x ∧ x < (b.Width : Int) ∧ 0 ≤ y ∧ y < (b.Height : Int) := by
  unfold Board.GetTile at h
  by_cases hc : x < 0 ∨ (b.Width : Int) ≤ x ∨ y < 0 ∨ (b.Height : Int) ≤ y
  · rw [if_pos hc] at h
    exact absurd h (by simp)
  · push_neg at hc
    exact hc

theorem GetTile_some {b : Board} {x y : Int}
    (hlen : b.Tiles.length = b.Width * b.Height)
    (hx0 : 0 ≤ x) (hxw : x < (b.Width : Int))
    (hy0 : 0 ≤ y) (hyh : y < (b.Height : Int)) :
    b.GetTile x y = b.Tiles.get? (y.toNat * b.Width + x.toNat) ∧
    ∃ t, b.GetTile x y = some t := by
  have hc : ¬ (x < 0 ∨ (b.Width : Int) ≤ x ∨ y < 0 ∨ (b.Height : Int) ≤ y) := by
    push_neg
    exact ⟨hx0, hxw, hy0, hyh⟩
  have h1 : b.GetTile x y = b.Tiles.get? (y.toNat * b.Width + x.toNat) := by
    unfold Board.GetTile
    rw [if_neg hc]
  refine ⟨h1, ?_⟩
  have hxn : x.toNat < b.Width := by omega
  have hyn : y.toNat < b.Height := by omega
  have hidx : y.toNat * b.Width + x.toNat < b.Tiles.length := by
    rw [hlen]
    exact idx_lt hyn hxn
  rw [h1, List.get?_eq_getElem?, List.getElem?_eq_getElem hidx]
  exact ⟨_, rfl⟩

theorem GetTile_none_of_out {b : Board} {x y : Int}
    (h : x < 0 ∨ (b.Width : Int) ≤ x ∨ y < 0 ∨ (b.Height : Int) ≤ y) :
    b.GetTile x y = none := by
  unfold Board.GetTile
  rw [if_pos h]

/-- The tile found at (x, y), described as a predicate. -/
def seaAt (b : Board) (x y : Int) : Prop :=
  ∃ t, b.GetTile x y = some t ∧ t.type = TileType.TileSea

/-- (x, y) holds Land or Bridge. -/
def landOrBridgeAt (b : Board) (x y : Int) : Prop :=
  ∃ t, b.GetTile x y = some t ∧
    (t.type = TileType.TileLand ∨ t.type = TileType.TileBridge)

theorem isLandOrBridge_iff (t : Tile) :
    isLandOrBridge t = true ↔
      (t.type = TileType.TileLand ∨ t.type = TileType.TileBridge) := by
  unfold isLandOrBridge
  simp

/-! ### Claim theorems -/

/-- **C9.** On a board whose tile slice has the advertised `Width*Height`
size (true of every constructed board), `GetTile` returns `none` exactly
on coordinates outside `[0,width) x [0,height)`, and an in-range lookup
always returns the tile stored at row-major index `y*width + x`; the
operation is total, never a panic. -/
theorem C9_getTile_total (b : Board) (x y : Int)
    (hlen : b.Tiles.length = b.Width * b.Height)
    (hw : 1 ≤ b.Width) (hh : 1 ≤ b.Height) :
    (b.GetTile x y = none ↔
      ¬ (0 ≤ x ∧ x < (b.Width : Int) ∧ 0 ≤ y ∧ y < (b.Height : Int))) ∧
    (0 ≤ x → x < (b.Width : Int) → 0 ≤ y → y < (b.Height : Int) →
      b.GetTile x y = b.Tiles.get? (y.toNat * b.Width + x.toNat) ∧
      ∃ t, b.GetTile x y = some t) := by
  constructor
  · constructor
    · intro hnone hin
      obtain ⟨h1, t, ht⟩ := GetTile_some hlen hin.1 hin.2.1 hin.2.2.1 hin.2.2.2
      rw [hnone] at ht
      exact absurd ht (by simp)
    · intro hout
      apply GetTile_none_of_out
      by_contra hc
      push_neg at hc
      exact hout hc
  · intro hx0 hxw hy0 hyh
    exact GetTile_some hlen hx0 hxw hy0 hyh

theorem C9_getTile_total_witness :
    (NewBoard 2 2).GetTile 1 0 = some { type := TileType.TileSea } ∧
    (NewBoard 2 2).GetTile 2 0 = none ∧
    (NewBoard 2 2).GetTile (-1) 0 = none :=
  ⟨by decide,
   (C9_getTile_total (NewBoard 2 2) 2 0 (by decide) (by decide) (by decide)).1.mpr
     (by decide),
   (C9_getTile_total (NewBoard 2 2) (-1) 0 (by decide) (by decide) (by decide)).1.mpr
     (by decide)⟩

/-- **C1.** `CanBuildBridge` is true exactly when the coordinate is in
range, holds a `Sea` tile, and at least one of its four orthogonal
neighbors (up, down, left, right — no diagonals) holds `Land` or
`Bridge`; out-of-range coordinates always give `false`. -/
theorem C1_canBuildBridge_iff (b : Board) (x y : Int)
    (hlen : b.Tiles.length = b.Width * b.Height) :
    b.CanBuildBridge x y = true ↔
    (0 ≤ x ∧ x < (b.Width : Int) ∧ 0 ≤ y ∧ y < (b.Height : Int) ∧
      seaAt b x y ∧
      (landOrBridgeAt b x (y + 1) ∨ landOrBridgeAt b (x + 1) y ∨
       landOrBridgeAt b x (y - 1) ∨ landOrBridgeAt b (x - 1) y)) := by
  unfold Board.CanBuildBridge
  split
  next hget =>
    simp only [Bool.false_eq_true, false_iff]
    intro ⟨hx0, hxw, hy0, hyh, ⟨t, ht, _⟩, _⟩
    rw [hget] at ht
    exact absurd ht (by simp)
  next t hget =>
    obtain ⟨hx0, hxw, hy0, hyh⟩ := GetTile_inBounds hget
    by_cases hsea : t.type = TileType.TileSea
    · have hne : ¬ t.type ≠ TileType.TileSea := by simp [hsea]
      rw [if_neg hne]
      have hseaAt : seaAt b x y := ⟨t, hget, hsea⟩
      simp only [directions, List.any_cons, List.any_nil, Bool.or_eq_true,
        Bool.false_eq_true, or_false, add_zero, ← sub_eq_add_neg]
      rcases h1 : b.GetTile x (y + 1) with _ | n1 <;>
        rcases h2 : b.GetTile (x + 1) y with _ | n2 <;>
          rcases h3 : b.GetTile x (y - 1) with _ | n3 <;>
            rcases h4 : b.GetTile (x - 1) y with _ | n4 <;>
              simp [h1, h2, h3, h4, neighborOk, isLandOrBridge, landOrBridgeAt,
                hx0, hxw, hy0, hyh, hseaAt]
    · rw [if_pos (by simpa using hsea)]
      simp only [Bool.false_eq_true, false_iff]
      intro ⟨_, _, _, _, ⟨t', ht', hsea'⟩, _⟩
      rw [hget] at ht'
      have : t' = t := by
        injection ht' with h
        exact h.symm
      rw [this] at hsea'
      exact hsea hsea'

/-- A 3x3 all-sea board with a single Land cell at (0,0). -/
def witnessBoard : Board := (NewBoard 3 3).SetTile 0 0 TileType.TileLand

theorem C1_canBuildBridge_iff_witness : witnessBoard.CanBuildBridge 1 0 = true :=
  (C1_canBuildBridge_iff witnessBoard 1 0 (by decide)).mpr
    ⟨by decide, by decide, by decide, by decide,
     ⟨{ type := TileType.TileSea }, by decide, rfl⟩,
     Or.inr (Or.inr (Or.inr ⟨{ type := TileType.TileLand }, by decide,
       Or.inl rfl⟩))⟩

/-- **C4.** When `CanBuildBridge` is false, `BuildBridge` returns the
board unchanged — in particular the per-kind tile counts, the island
registry and the component count are untouched. -/
theorem C4_buildBridge_noop (b : Board) (x y : Int)
    (h : b.CanBuildBridge x y = false) :
    b.BuildBridge x y = b ∧
    (∀ k : TileType,
      ((b.BuildBridge x y).Tiles.filter fun t => t.type = k).length =
        (b.Tiles.filter fun t => t.type = k).length) ∧
    (b.BuildBridge x y).Islands = b.Islands ∧
    (b.BuildBridge x y).UnionFind.ComponentCount =
      b.UnionFind.ComponentCount := by
  have heq : b.BuildBridge x y = b := by
    unfold Board.BuildBridge
    simp [h]
  exact ⟨heq, fun k => by rw [heq], by rw [heq], by rw [heq]⟩

theorem C4_buildBridge_noop_witness :
    (NewBoard 2 2).BuildBridge 0 0 = NewBoard 2 2 :=
  (C4_buildBridge_noop (NewBoard 2 2) 0 0 (by decide)).1

/-! ### The documented 5x5 level (SetupLevel1) -/

def level1Board : Board := (NewBoard 5 5).SetupLevel1
def level1After1 : Board := level1Board.BuildBridge 2 1
def level1After2 : Board := level1After1.BuildBridge 2 2

/-- **C2, counterexample.**  In the spec scenario the union-find
`component_count` starts at 25 (one component per grid cell, sea cells
included) and ends at 21 after the two builds (four successful unions),
so it does not go from 3 to 1. -/
theorem C2_counterexample :
    level1Board.UnionFind.ComponentCount = 25 ∧
    level1After2.UnionFind.ComponentCount = 21 ∧
    ¬ (level1Board.UnionFind.ComponentCount = 3 ∧
       level1After2.UnionFind.ComponentCount = 1) := by
  refine ⟨by decide, by decide, ?_⟩
  intro ⟨h1, _⟩
  exact absurd h1 (by decide)

/-- **C2, amended.**  Both builds pass `CanBuildBridge`,
`IsAllConnected` becomes true, and the number of distinct island
components drops from 3 to 1; the union-find `component_count` — which
counts all 25 cells — drops from 25 to 23 to 21, via exactly 4
successful unions (2 per build). -/
theorem C2_level1_scenario :
    level1Board.CanBuildBridge 2 1 = true ∧
    level1After1.CanBuildBridge 2 2 = true ∧
    level1After2.IsAllConnected = true ∧
    (level1Board.Islands.map (rootOf level1Board.UnionFind.parent)).dedup.length
      = 3 ∧
    (level1After2.Islands.map (rootOf level1After2.UnionFind.parent)).dedup.length
      = 1 ∧
    level1Board.UnionFind.ComponentCount = 25 ∧
    level1After1.UnionFind.ComponentCount = 23 ∧
    level1After2.UnionFind.ComponentCount = 21 := by
  decide

/-! ### IsAllConnected -/

theorem allConnAux_spec (first : Nat) :
    ∀ (rest : List Nat) (uf : UnionFind), UFWF uf.parent →
    (allConnAux uf first rest = true ↔
      ∀ i ∈ rest, sameRoot uf.parent first i) := by
  intro rest
  induction rest with
  | nil =>
    intro uf _
    simp [allConnAux]
  | cons i rest ih =>
    intro uf hwf
    obtain ⟨hc2, hcroots, hcwf, _, _, _⟩ := Connected_full uf first i hwf
    simp only [allConnAux]
    rw [hc2]
    by_cases hconn : rootOf uf.parent first = rootOf uf.parent i
    · have hbeq : (rootOf uf.parent first == rootOf uf.parent i) = true := by
        simp [hconn]
      rw [hbeq, if_pos rfl, ih (uf.Connected first i).1 hcwf]
      constructor
      · intro h j hj
        rcases List.mem_cons.mp hj with rfl | hj'
        · exact hconn
        · have hr := h j hj'
          unfold sameRoot at hr ⊢
          rw [hcroots first, hcroots j] at hr
          exact hr
      · intro h j hj
        have hr := h j (List.mem_cons_of_mem i hj)
        unfold sameRoot at hr ⊢
        rw [hcroots first, hcroots j]
        exact hr
    · have hbeq : (rootOf uf.parent first == rootOf uf.parent i) = false := by
        simp [hconn]
      rw [hbeq]
      constructor
      · intro h
        exact absurd h (by simp)
      · intro h
        exact absurd (h i (List.mem_cons_self i rest)) hconn

/-- **C6.** `IsAllConnected` is true whenever the island registry holds
at most one entry (any grid size); with two or more islands it is true
exactly when every island cell shares its union-find component with the
first island in the registry. -/
theorem C6_isAllConnected (b : Board) :
    (b.Islands.length ≤ 1 → b.IsAllConnected = true) ∧
    (UFWF b.UnionFind.parent → ∀ first rest, b.Islands = first :: rest →
      (b.IsAllConnected = true ↔
        ∀ i ∈ b.Islands, sameRoot b.UnionFind.parent i first)) := by
  constructor
  · intro hle
    unfold Board.IsAllConnected
    rw [if_pos hle]
  · intro hwf first rest hisl
    unfold Board.IsAllConnected
    rw [hisl]
    by_cases hle : (first :: rest).length ≤ 1
    · rw [if_pos hle]
      have hnil : rest = [] := by
        cases rest with
        | nil => rfl
        | cons a l => simp at hle
      subst hnil
      simp [sameRoot]
    · rw [if_neg hle]
      show allConnAux b.UnionFind first rest = true ↔ _
      rw [allConnAux_spec first rest b.UnionFind hwf]
      constructor
      · intro h i hi
        rcases List.mem_cons.mp hi with rfl | hi'
        · unfold sameRoot
          rfl
        · exact (h i hi').symm
      · intro h i hi
        exact (h i (List.mem_cons_of_mem first hi)).symm

theorem C6_isAllConnected_witness :
    ((NewBoard 2 2).SetTile 0 0 TileType.TileLand).IsAllConnected = true ∧
    level1After2.IsAllConnected = true :=
  ⟨(C6_isAllConnected _).1 (by decide),
   ((C6_isAllConnected level1After2).2 (by decide) 6 [8, 17]
     (by decide)).mpr (by decide)⟩

/-! ### Union and Find, as the spec describes them -/

theorem subst_eq_iff {s t a b : Nat} (hab : a ≠ b) :
    ((if s = a then b else s) = (if t = a then b else t)) ↔
      (s = t ∨ ((s = a ∨ s = b) ∧ (t = a ∨ t = b))) := by
  split_ifs <;> omega

/-- **C3.** `Union` on two cells already sharing a component returns
false and leaves the partition, the ranks and the component counter
unchanged; on distinct components it returns true, attaches the
lower-rank root under the higher-rank root (incrementing the surviving
root's rank only on a tie), merges exactly those two components, and
decrements the live-component counter by exactly 1. -/
theorem C3_union_correct (uf : UnionFind) (i j : Nat)
    (hwf : UFWF uf.parent)
    (hi : i < uf.parent.length) (hj : j < uf.parent.length) :
    (sameRoot uf.parent i j →
      (uf.Union i j).2 = false ∧
      (uf.Union i j).1.count = uf.count ∧
      (uf.Union i j).1.rank = uf.rank ∧
      (∀ a b, sameRoot (uf.Union i j).1.parent a b ↔ sameRoot uf.parent a b)) ∧
    (¬ sameRoot uf.parent i j →
      (uf.Union i j).2 = true ∧
      (uf.Union i j).1.count = uf.count - 1 ∧
      (∀ a b, sameRoot (uf.Union i j).1.parent a b ↔
        (sameRoot uf.parent a b ∨
         (sameRoot uf.parent a i ∧ sameRoot uf.parent b j) ∨
         (sameRoot uf.parent a j ∧ sameRoot uf.parent b i))) ∧
      (uf.rank.getD (rootOf uf.parent i) 0 < uf.rank.getD (rootOf uf.parent j) 0 →
        parentOf (uf.Union i j).1.parent (rootOf uf.parent i) =
          rootOf uf.parent j ∧
        (uf.Union i j).1.rank = uf.rank) ∧
      (uf.rank.getD (rootOf uf.parent j) 0 < uf.rank.getD (rootOf uf.parent i) 0 →
        parentOf (uf.Union i j).1.parent (rootOf uf.parent j) =
          rootOf uf.parent i ∧
        (uf.Union i j).1.rank = uf.rank) ∧
      (uf.rank.getD (rootOf uf.parent i) 0 = uf.rank.getD (rootOf uf.parent j) 0 →
        parentOf (uf.Union i j).1.parent (rootOf uf.parent j) =
          rootOf uf.parent i ∧
        (uf.Union i j).1.rank =
          uf.rank.set (rootOf uf.parent i)
            (uf.rank.getD (rootOf uf.parent i) 0 + 1))) := by
  obtain ⟨hwf', hlen', hsame, hdiff⟩ := Union_full uf i j hwf hi hj
  constructor
  · intro h
    obtain ⟨h1, h2, h3, h4⟩ := hsame h
    refine ⟨h1, h2, h3, fun a b => ?_⟩
    unfold sameRoot
    rw [h4 a, h4 b]
  · intro h
    obtain ⟨h1, h2, ⟨A, B, hAB, hABcases, hresx, hsub⟩, h4, h5, h6⟩ := hdiff h
    refine ⟨h1, h2, fun a b => ?_, h4, h5, h6⟩
    unfold sameRoot at h ⊢
    rw [hsub a, hsub b]
    rcases hABcases with ⟨rfl, rfl⟩ | ⟨rfl, rfl⟩ <;>
      rw [subst_eq_iff hAB] <;> omega

theorem C3_union_correct_witness :
    ((NewUnionFind 3).Union 0 1).2 = true ∧
    ((NewUnionFind 3).Union 0 1).1.count = (NewUnionFind 3).count - 1 ∧
    ((NewUnionFind 3).Union 0 0).2 = false ∧
    ((NewUnionFind 3).Union 0 0).1.count = (NewUnionFind 3).count :=
  ⟨((C3_union_correct (NewUnionFind 3) 0 1 (by decide) (by decide)
      (by decide)).2 (by decide)).1,
   ((C3_union_correct (NewUnionFind 3) 0 1 (by decide) (by decide)
      (by decide)).2 (by decide)).2.1,
   ((C3_union_correct (NewUnionFind 3) 0 0 (by decide) (by decide)
      (by decide)).1 (by decide)).1,
   ((C3_union_correct (NewUnionFind 3) 0 0 (by decide) (by decide)
      (by decide)).1 (by decide)).2.1⟩

/-- **C10.** `Find` never changes the partition: on a well-formed state
the value returned by `Connected(a,b)` and the component counter are the
same before and after any `Find(i)`; path compression rewrites parent
links only within components. -/
theorem C10_find_preserves_partition (uf : UnionFind) (i a b : Nat)
    (hwf : UFWF uf.parent) :
    ((uf.Find i).1.Connected a b).2 = (uf.Connected a b).2 ∧
    (uf.Find i).1.count = uf.count ∧
    (∀ z w, sameRoot (uf.Find i).1.parent z w ↔ sameRoot uf.parent z w) := by
  obtain ⟨hF2, hFroots, hFwf, hFlen, hFrank, hFcount⟩ := Find_full uf i hwf
  obtain ⟨hc2, _, _, _, _, _⟩ := Connected_full uf a b hwf
  obtain ⟨hc2', _, _, _, _, _⟩ := Connected_full (uf.Find i).1 a b hFwf
  refine ⟨?_, hFcount, fun z w => ?_⟩
  · rw [hc2, hc2', hFroots a, hFroots b]
  · unfold sameRoot
    rw [hFroots z, hFroots w]

/-! ### BuildBridge: counting the merges (towards C5) -/

/-- Folding `Union idx - ` over a list of cell indices, as the
bridge-building loop does. -/
def unionAll (uf : UnionFind) (idx : Nat) (ns : List Nat) : UnionFind :=
  ns.foldl (fun u n => (u.Union idx n).1) uf

theorem rowmajor_inj {W a a' c c' : Nat} (hc : c < W) (hc' : c' < W)
    (h : a * W + c = a' * W + c') : a = a' ∧ c = c' := by
  have hW : 0 < W := by omega
  have h' : c + a * W = c' + a' * W := by linarith
  have hmod := congrArg (· % W) h'
  simp only [Nat.add_mul_mod_self_right] at hmod
  rw [Nat.mod_eq_of_lt hc, Nat.mod_eq_of_lt hc'] at hmod
  subst hmod
  have hmul : a * W = a' * W := by linarith
  exact ⟨Nat.eq_of_mul_eq_mul_right hW hmul, rfl⟩

theorem SetTile_Width (b : Board) (x y : Int) (t : TileType) :
    (b.SetTile x y t).Width = b.Width := by
  unfold Board.SetTile
  split_ifs <;> rfl

theorem SetTile_Height (b : Board) (x y : Int) (t : TileType) :
    (b.SetTile x y t).Height = b.Height := by
  unfold Board.SetTile
  split_ifs <;> rfl

theorem SetTile_UnionFind (b : Board) (x y : Int) (t : TileType) :
    (b.SetTile x y t).UnionFind = b.UnionFind := by
  unfold Board.SetTile
  split_ifs <;> rfl

theorem SetTile_Tiles_len (b : Board) (x y : Int) (t : TileType) :
    (b.SetTile x y t).Tiles.length = b.Tiles.length := by
  unfold Board.SetTile
  split_ifs <;> simp

/-- `GetTile` reads only the width, height and tile slice. -/
theorem GetTile_congr {b b' : Board} (hW : b'.Width = b.Width)
    (hH : b'.Height = b.Height) (hT : b'.Tiles = b.Tiles) (u v : Int) :
    b'.GetTile u v = b.GetTile u v := by
  unfold Board.GetTile
  rw [hW, hH, hT]

/-- Writing one cell does not change any other cell's tile. -/
theorem GetTile_SetTile_ne (b : Board) {x y u v : Int} (t : TileType)
    (hlen : b.Tiles.length = b.Width * b.Height)
    (hne : ¬ (u = x ∧ v = y)) :
    (b.SetTile x y t).GetTile u v = b.GetTile u v := by
  unfold Board.SetTile
  split_ifs with hout hland
  · rfl
  · -- Land write: Tiles set and Islands appended; Width/Height unchanged
    unfold Board.GetTile
    simp only
    split_ifs with hout'
    · rfl
    · push_neg at hout hout'
      have hxb : x.toNat < b.Width := by omega
      have hub : u.toNat < b.Width := by omega
      have hidx : y.toNat * b.Width + x.toNat ≠ v.toNat * b.Width + u.toNat := by
        intro hcontra
        obtain ⟨hv, hu⟩ := rowmajor_inj hxb hub hcontra
        exact hne ⟨by omega, by omega⟩
      rw [List.get?_eq_getElem?, List.get?_eq_getElem?,
        List.getElem?_set_ne hidx]
  · unfold Board.GetTile
    simp only
    split_ifs with hout'
    · rfl
    · push_neg at hout hout'
      have hxb : x.toNat < b.Width := by omega
      have hub : u.toNat < b.Width := by omega
      have hidx : y.toNat * b.Width + x.toNat ≠ v.toNat * b.Width + u.toNat := by
        intro hcontra
        obtain ⟨hv, hu⟩ := rowmajor_inj hxb hub hcontra
        exact hne ⟨by omega, by omega⟩
      rw [List.get?_eq_getElem?, List.get?_eq_getElem?,
        List.getElem?_set_ne hidx]

theorem insert_sdiff_singleton_ne {a c : Nat} (s : Finset Nat) (h : a ≠ c) :
    insert a s \ {c} = insert a (s \ {c}) := by
  ext z
  simp only [Finset.mem_sdiff, Finset.mem_insert, Finset.mem_singleton]
  constructor
  · rintro ⟨hz | hz, hzc⟩
    · exact Or.inl hz
    · exact Or.inr ⟨hz, hzc⟩
  · rintro (rfl | ⟨hz, hzc⟩)
    · exact ⟨Or.inl rfl, h⟩
    · exact ⟨Or.inr hz, hzc⟩

theorem card_insert_eq (a : Nat) (s : Finset Nat) :
    (insert a s).card = (s \ {a}).card + 1 := by
  have h1 : insert a s = insert a (s.erase a) := by
    ext z
    simp only [Finset.mem_insert, Finset.mem_erase]
    constructor
    · rintro (rfl | hz)
      · exact Or.inl rfl
      · by_cases hza : z = a
        · exact Or.inl hza
        · exact Or.inr ⟨hza, hz⟩
    · rintro (rfl | ⟨_, hz⟩)
      · exact Or.inl rfl
      · exact Or.inr hz
  rw [h1, Finset.card_insert_of_not_mem (Finset.not_mem_erase a s),
    Finset.sdiff_singleton_eq_erase]

/-- The heart of C5: folding `Union idx - ` over any list of valid cell
indices lowers the component counter by exactly the number of distinct
components among those cells that differ from `idx`'s component. -/
theorem unionAll_spec (idx : Nat) :
    ∀ (ns : List Nat) (uf : UnionFind), UFWF uf.parent →
      idx < uf.parent.length → (∀ n ∈ ns, n < uf.parent.length) →
      UFWF (unionAll uf idx ns).parent ∧
      (unionAll uf idx ns).parent.length = uf.parent.length ∧
      (unionAll uf idx ns).count =
        uf.count -
          (((ns.map (rootOf uf.parent)).toFinset \
            {rootOf uf.parent idx}).card : Int) := by
  intro ns
  induction ns with
  | nil =>
    intro uf hwf _ _
    refine ⟨hwf, rfl, ?_⟩
    simp [unionAll]
  | cons n ns ih =>
    intro uf hwf hidx hns
    have hn : n < uf.parent.length := hns n (List.mem_cons_self n ns)
    have hns' : ∀ m ∈ ns, m < uf.parent.length :=
      fun m hm => hns m (List.mem_cons_of_mem n hm)
    obtain ⟨hwf1, hlen1, hsame, hdiff⟩ := Union_full uf idx n hwf hidx hn
    have hstep : unionAll uf idx (n :: ns) = unionAll (uf.Union idx n).1 idx ns := rfl
    by_cases hc : rootOf uf.parent idx = rootOf uf.parent n
    · obtain ⟨_, hcount, _, hroots⟩ := hsame hc
      have hIH := ih (uf.Union idx n).1 hwf1 (by rwa [hlen1])
        (fun m hm => by rw [hlen1]; exact hns' m hm)
      have hmap : ns.map (rootOf (uf.Union idx n).1.parent) =
          ns.map (rootOf uf.parent) :=
        List.map_congr_left fun a _ => hroots a
      have hsets : ((n :: ns).map (rootOf uf.parent)).toFinset \
            {rootOf uf.parent idx} =
          (ns.map (rootOf uf.parent)).toFinset \ {rootOf uf.parent idx} := by
        rw [List.map_cons, List.toFinset_cons, ← hc,
          Finset.sdiff_singleton_eq_erase, Finset.sdiff_singleton_eq_erase,
          Finset.erase_insert_eq_erase]
      refine ⟨hIH.1, hIH.2.1.trans hlen1, ?_⟩
      rw [hstep, hIH.2.2, hcount, hmap, hroots idx, hsets]
    · obtain ⟨_, hcount, ⟨A, B, hAB, hABcases, hrootx, hsub⟩, _, _, _⟩ := hdiff hc
      have hIH := ih (uf.Union idx n).1 hwf1 (by rwa [hlen1])
        (fun m hm => by rw [hlen1]; exact hns' m hm)
      have hmap : ns.map (rootOf (uf.Union idx n).1.parent) =
          ns.map (fun m =>
            if rootOf uf.parent m = A then B else rootOf uf.parent m) :=
        List.map_congr_left fun a _ => hsub a
      have hrne : rootOf uf.parent n ≠ rootOf uf.parent idx :=
        fun h => hc h.symm
      have hsubset : (ns.map fun m =>
            if rootOf uf.parent m = A then B else rootOf uf.parent m).toFinset \
            {B} =
          (ns.map (rootOf uf.parent)).toFinset \ {A, B} := by
        ext z
        simp only [List.mem_toFinset, List.mem_map, Finset.mem_sdiff,
          Finset.mem_singleton, Finset.mem_insert]
        constructor
        · rintro ⟨⟨m, hm, hgm⟩, hzB⟩
          by_cases hA : rootOf uf.parent m = A
          · rw [if_pos hA] at hgm
            exact absurd hgm.symm hzB
          · rw [if_neg hA] at hgm
            subst hgm
            exact ⟨⟨m, hm, rfl⟩, not_or.mpr ⟨hA, hzB⟩⟩
        · rintro ⟨⟨m, hm, hroot⟩, hnotin⟩
          have hzA : z ≠ A := fun h => hnotin (Or.inl h)
          have hzB : z ≠ B := fun h => hnotin (Or.inr h)
          subst hroot
          exact ⟨⟨m, hm, by rw [if_neg hzA]⟩, hzB⟩
      have hABset : (ns.map (rootOf uf.parent)).toFinset \ ({A, B} : Finset Nat) =
          (ns.map (rootOf uf.parent)).toFinset \
            {rootOf uf.parent idx, rootOf uf.parent n} := by
        rcases hABcases with ⟨rfl, rfl⟩ | ⟨rfl, rfl⟩
        · rfl
        · rw [Finset.pair_comm]
      have hcard : ((n :: ns).map (rootOf uf.parent)).toFinset \
            {rootOf uf.parent idx} =
          insert (rootOf uf.parent n)
            ((ns.map (rootOf uf.parent)).toFinset \ {rootOf uf.parent idx}) := by
        rw [List.map_cons, List.toFinset_cons,
          insert_sdiff_singleton_ne _ hrne]
      have hsplit : ((ns.map (rootOf uf.parent)).toFinset \
            {rootOf uf.parent idx}) \ {rootOf uf.parent n} =
          (ns.map (rootOf uf.parent)).toFinset \
            {rootOf uf.parent idx, rootOf uf.parent n} := by
        rw [sdiff_sdiff_left]
        congr 1
      refine ⟨hIH.1, hIH.2.1.trans hlen1, ?_⟩
      rw [hstep, hIH.2.2, hcount, hmap, hrootx, hsubset, hABset, hcard,
        card_insert_eq, hsplit]
      push_cast
      ring

/-- The bridge-building loop, run from any board that shares the
post-`SetTile` tile slice, is exactly `unionAll` over the neighbor list
probed on the original board. -/
theorem buildFold_eq (b : Board) (x y : Int)
    (hlen : b.Tiles.length = b.Width * b.Height) (idx : Nat) :
    ∀ (ds : List (Int × Int)) (bb : Board),
      bb.Width = b.Width → bb.Height = b.Height →
      bb.Tiles = (b.SetTile x y TileType.TileBridge).Tiles →
      (∀ d ∈ ds, ¬ (x + d.1 = x ∧ y + d.2 = y)) →
      ds.foldl (buildStep x y idx) bb =
        { bb with UnionFind :=
            unionAll bb.UnionFind idx (ds.filterMap (neighborProbe b x y)) } := by
  intro ds
  induction ds with
  | nil =>
    intro bb _ _ _ _
    rfl
  | cons d ds ih =>
    intro bb hW hH hT hd
    have hdd : ¬ (x + d.1 = x ∧ y + d.2 = y) := hd d (List.mem_cons_self d ds)
    have hGet : bb.GetTile (x + d.1) (y + d.2) =
        b.GetTile (x + d.1) (y + d.2) := by
      have h1 : bb.GetTile (x + d.1) (y + d.2) =
          (b.SetTile x y TileType.TileBridge).GetTile (x + d.1) (y + d.2) :=
        GetTile_congr (by rw [SetTile_Width]; exact hW)
          (by rw [SetTile_Height]; exact hH) hT _ _
      exact h1.trans (GetTile_SetTile_ne b _ hlen hdd)
    rw [List.foldl_cons]
    by_cases hok : neighborOk (b.GetTile (x + d.1) (y + d.2)) = true
    · have hstep : buildStep x y idx bb d =
          { bb with UnionFind := (bb.UnionFind.Union idx
              ((y + d.2).toNat * b.Width + (x + d.1).toNat)).1 } := by
        unfold buildStep
        rw [hGet, if_pos hok, hW]
      have hprobe : neighborProbe b x y d =
          some ((y + d.2).toNat * b.Width + (x + d.1).toNat) := by
        unfold neighborProbe
        rw [if_pos hok]
      rw [hstep, List.filterMap_cons_some hprobe]
      exact ih _ hW hH hT fun e he => hd e (List.mem_cons_of_mem d he)
    · have hstep : buildStep x y idx bb d = bb := by
        unfold buildStep
        rw [hGet, if_neg hok]
      have hprobe : neighborProbe b x y d = none := by
        unfold neighborProbe
        rw [if_neg hok]
      rw [hstep, List.filterMap_cons_none hprobe]
      exact ih bb hW hH hT fun e he => hd e (List.mem_cons_of_mem d he)

/-- An in-range `SetTile` stores exactly the requested tile. -/
theorem GetTile_SetTile_self (b : Board) {x y : Int} (t : TileType)
    (hlen : b.Tiles.length = b.Width * b.Height)
    (hx0 : 0 ≤ x) (hxw : x < (b.Width : Int))
    (hy0 : 0 ≤ y) (hyh : y < (b.Height : Int)) :
    (b.SetTile x y t).GetTile x y = some { type := t } := by
  have hin : ¬ (x < 0 ∨ (b.Width : Int) ≤ x ∨ y < 0 ∨ (b.Height : Int) ≤ y) := by
    push_neg
    exact ⟨hx0, hxw, hy0, hyh⟩
  have hidx : y.toNat * b.Width + x.toNat < b.Tiles.length := by
    rw [hlen]
    exact idx_lt (by omega) (by omega)
  unfold Board.SetTile
  rw [if_neg hin]
  split_ifs with hland
  · unfold Board.GetTile
    simp only
    rw [if_neg hin, List.get?_eq_getElem?, List.getElem?_set_self',
      List.getElem?_eq_getElem hidx]
    rfl
  · unfold Board.GetTile
    simp only
    rw [if_neg hin, List.get?_eq_getElem?, List.getElem?_set_self',
      List.getElem?_eq_getElem hidx]
    rfl

/-- **C5.** A successful `BuildBridge` sets the cell to `Bridge`, unions
it with each of its 1-4 Land/Bridge orthogonal neighbors, and lowers the
component counter by exactly the number of distinct components among
those neighbors that were not already the cell's own component; in
particular the counter never increases. -/
theorem C5_buildBridge_components (b : Board) (x y : Int)
    (hB : BoardWF b) (hc : b.CanBuildBridge x y = true) :
    (b.BuildBridge x y).GetTile x y = some { type := TileType.TileBridge } ∧
    1 ≤ (neighborIdxList b x y).length ∧
    (neighborIdxList b x y).length ≤ 4 ∧
    (b.BuildBridge x y).UnionFind.count =
      b.UnionFind.count -
        ((((neighborIdxList b x y).map (rootOf b.UnionFind.parent)).toFinset \
          {rootOf b.UnionFind.parent (y.toNat * b.Width + x.toNat)}).card : Int) ∧
    (b.BuildBridge x y).UnionFind.count ≤ b.UnionFind.count := by
  obtain ⟨hTlen, hPlen, hRlen, hwf⟩ := hB
  obtain ⟨hx0, hxw, hy0, hyh, hseaAt, _⟩ :=
    (C1_canBuildBridge_iff b x y hTlen).mp hc
  obtain ⟨t0, hget0, hsea0⟩ := hseaAt
  have hdirs : ∀ d ∈ directions, ¬ (x + d.1 = x ∧ y + d.2 = y) := by
    intro d hd
    simp only [directions, List.mem_cons, List.not_mem_nil, or_false] at hd
    rcases hd with rfl | rfl | rfl | rfl <;> rintro ⟨h1, h2⟩ <;> omega
  have hbuild : b.BuildBridge x y =
      { b.SetTile x y TileType.TileBridge with
        UnionFind :=
          unionAll (b.SetTile x y TileType.TileBridge).UnionFind
            (y.toNat * b.Width + x.toNat) (neighborIdxList b x y) } := by
    unfold Board.BuildBridge
    rw [if_pos hc]
    exact buildFold_eq b x y hTlen (y.toNat * b.Width + x.toNat) directions
      (b.SetTile x y TileType.TileBridge) (SetTile_Width b x y _)
      (SetTile_Height b x y _) rfl hdirs
  have hUF : (b.BuildBridge x y).UnionFind =
      unionAll b.UnionFind (y.toNat * b.Width + x.toNat)
        (neighborIdxList b x y) := by
    rw [hbuild]
    show unionAll (b.SetTile x y TileType.TileBridge).UnionFind _ _ = _
    rw [SetTile_UnionFind]
  have htile : (b.BuildBridge x y).GetTile x y =
      some { type := TileType.TileBridge } := by
    rw [hbuild]
    have hcongr : ({ b.SetTile x y TileType.TileBridge with
        UnionFind :=
          unionAll (b.SetTile x y TileType.TileBridge).UnionFind
            (y.toNat * b.Width + x.toNat) (neighborIdxList b x y) } :
          Board).GetTile x y =
        (b.SetTile x y TileType.TileBridge).GetTile x y :=
      GetTile_congr rfl rfl rfl x y
    rw [hcongr]
    exact GetTile_SetTile_self b _ hTlen hx0 hxw hy0 hyh
  have hany : directions.any
      (fun dir => neighborOk (b.GetTile (x + dir.1) (y + dir.2))) = true := by
    unfold Board.CanBuildBridge at hc
    rw [hget0] at hc
    simpa [hsea0] using hc
  obtain ⟨d, hdmem, hok⟩ := List.any_eq_true.mp hany
  have hmem : ((y + d.2).toNat * b.Width + (x + d.1).toNat) ∈
      neighborIdxList b x y := by
    refine List.mem_filterMap.mpr ⟨d, hdmem, ?_⟩
    unfold neighborProbe
    rw [if_pos hok]
  have h1le : 1 ≤ (neighborIdxList b x y).length :=
    List.length_pos.mpr (List.ne_nil_of_mem hmem)
  have h4ge : (neighborIdxList b x y).length ≤ 4 := by
    have := List.length_filterMap_le (neighborProbe b x y) directions
    simpa [directions] using this
  have hmem_lt : ∀ n ∈ neighborIdxList b x y,
      n < b.UnionFind.parent.length := by
    intro n hn
    obtain ⟨e, hemem, hv⟩ := List.mem_filterMap.mp hn
    unfold neighborProbe at hv
    by_cases hok' : neighborOk (b.GetTile (x + e.1) (y + e.2)) = true
    · rw [if_pos hok'] at hv
      have hn' : (y + e.2).toNat * b.Width + (x + e.1).toNat = n :=
        Option.some.inj hv
      rcases hg : b.GetTile (x + e.1) (y + e.2) with _ | nt
      · rw [hg] at hok'
        exact absurd hok' (by simp [neighborOk])
      · obtain ⟨hu0, huw, hv0, hvh⟩ := GetTile_inBounds hg
        rw [hPlen, ← hn']
        exact idx_lt (by omega) (by omega)
    · rw [if_neg hok'] at hv
      exact absurd hv (by simp)
  have hidx_lt : y.toNat * b.Width + x.toNat < b.UnionFind.parent.length := by
    rw [hPlen]
    exact idx_lt (by omega) (by omega)
  obtain ⟨_, _, hcount⟩ := unionAll_spec (y.toNat * b.Width + x.toNat)
    (neighborIdxList b x y) b.UnionFind hwf hidx_lt hmem_lt
  refine ⟨htile, h1le, h4ge, ?_, ?_⟩
  · rw [hUF, hcount]
  · rw [hUF, hcount]
    have : (0 : Int) ≤
        ((((neighborIdxList b x y).map (rootOf b.UnionFind.parent)).toFinset \
          {rootOf b.UnionFind.parent (y.toNat * b.Width + x.toNat)}).card : Int) := by
      positivity
    omega

theorem C5_buildBridge_components_witness :
    level1After1.GetTile 2 1 = some { type := TileType.TileBridge } ∧
    level1After1.UnionFind.count = level1Board.UnionFind.count - 2 ∧
    level1After1.UnionFind.count ≤ level1Board.UnionFind.count := by
  have h := C5_buildBridge_components level1Board 2 1 (by decide) (by decide)
  refine ⟨h.1, ?_, h.2.2.2.2⟩
  have h2 := h.2.2.2.1
  show (level1Board.BuildBridge 2 1).UnionFind.count = _
  rw [h2]
  decide

theorem C10_find_preserves_partition_witness :
    (((NewUnionFind 3).Union 0 1).1.Find 1).1.count =
      ((NewUnionFind 3).Union 0 1).1.count ∧
    ((((NewUnionFind 3).Union 0 1).1.Find 1).1.Connected 0 1).2 =
      (((NewUnionFind 3).Union 0 1).1.Connected 0 1).2 :=
  ⟨(C10_find_preserves_partition ((NewUnionFind 3).Union 0 1).1 1 0 1
      (by decide)).2.1,
   (C10_find_preserves_partition ((NewUnionFind 3).Union 0 1).1 1 0 1
      (by decide)).1⟩

/-! ### Achievement bookkeeping lemmas -/

theorem updateAch_self (f : AchievementType → Achievement)
    (id : AchievementType) (a : Achievement) : updateAch f id a id = a := by
  simp [updateAch]

theorem updateAch_ne (f : AchievementType → Achievement)
    (id : AchievementType) (a : Achievement) (j : AchievementType)
    (h : j ≠ id) : updateAch f id a j = f j := by
  simp [updateAch, h]

theorem setProgress_stats (as : AchievementSystem) (id : AchievementType)
    (v : Int) : (setProgress as id v).statistics = as.statistics := rfl

theorem checkAchievementBase_stats (as : AchievementSystem)
    (id : AchievementType) (now : Int) :
    (checkAchievementBase as id now).statistics = as.statistics := by
  simp only [checkAchievementBase]
  split_ifs <;> rfl

theorem checkMasterAchievement_stats (as : AchievementSystem) (now : Int) :
    (checkMasterAchievement as now).statistics = as.statistics := by
  simp only [checkMasterAchievement]
  split_ifs
  · rfl
  · rw [checkAchievementBase_stats]

theorem checkAchievement_stats (as : AchievementSystem)
    (id : AchievementType) (now : Int) :
    (checkAchievement as id now).statistics = as.statistics := by
  simp only [checkAchievement]
  split_ifs
  · rfl
  · rw [checkMasterAchievement_stats]
  · rfl

theorem checkAchievementBase_ach_ne (as : AchievementSystem)
    (id : AchievementType) (now : Int) (j : AchievementType) (h : j ≠ id) :
    (checkAchievementBase as id now).achievements j = as.achievements j := by
  simp only [checkAchievementBase]
  split_ifs
  · rfl
  · exact updateAch_ne _ _ _ _ h
  · rfl

theorem checkMasterAchievement_ach_ne (as : AchievementSystem) (now : Int)
    (j : AchievementType) (h : j ≠ AchievementMaster) :
    (checkMasterAchievement as now).achievements j = as.achievements j := by
  simp only [checkMasterAchievement]
  split_ifs
  · rfl
  · rw [checkAchievementBase_ach_ne _ _ _ _ h]
    exact updateAch_ne _ _ _ _ h

theorem checkAchievement_ach_ne (as : AchievementSystem)
    (id : AchievementType) (now : Int) (j : AchievementType)
    (h1 : j ≠ id) (h2 : j ≠ AchievementMaster) :
    (checkAchievement as id now).achievements j = as.achievements j := by
  simp only [checkAchievement]
  split_ifs
  · rfl
  · rw [checkMasterAchievement_ach_ne _ _ _ h2]
    exact updateAch_ne _ _ _ _ h1
  · rfl

theorem checkAchievement_ach_self (as : AchievementSystem)
    (id : AchievementType) (now : Int) (hid : id ≠ AchievementMaster) :
    (checkAchievement as id now).achievements id =
      (if (as.achievements id).Unlocked = false ∧
          (as.achievements id).Target ≤ (as.achievements id).Progress
       then { as.achievements id with
              Unlocked := true,
              UnlockedAt := some now }
       else as.achievements id) := by
  by_cases hU : (as.achievements id).Unlocked = true
  · have hstep : checkAchievement as id now = as := by
      simp only [checkAchievement]
      rw [if_pos hU]
    rw [hstep, if_neg (by simp [hU])]
  · by_cases hT : (as.achievements id).Target ≤ (as.achievements id).Progress
    · have hstep : checkAchievement as id now =
          checkMasterAchievement
            { as with
              achievements := updateAch as.achievements id
                { as.achievements id with
                  Unlocked := true, UnlockedAt := some now }
              notified := as.notified ++ [id] } now := by
        simp only [checkAchievement]
        rw [if_neg hU, if_pos hT]
      rw [hstep, checkMasterAchievement_ach_ne _ _ _ hid]
      show updateAch _ _ _ id = _
      rw [updateAch_self, if_pos ⟨by simpa using hU, hT⟩]
    · have hstep : checkAchievement as id now = as := by
        simp only [checkAchievement]
        rw [if_neg hU, if_neg hT]
      rw [hstep, if_neg (fun hc => hT hc.2)]

/-- The consecutive-day streak `OnGameStart` computes: incremented when
the last play was exactly one day (24h-truncated) earlier, reset to 1
when it was more than one day earlier, initialized to 1 with no prior
play, unchanged otherwise. -/
def newStreakVal (as : AchievementSystem) (now : Int) : Int :=
  match as.statistics.LastPlayDate with
  | some last =>
    if (now - last) / 24 = 1 then as.statistics.PlayStreak + 1
    else if 1 < (now - last) / 24 then 1
    else as.statistics.PlayStreak
  | none => 1

/-- `OnGameStart`, with the streak update pulled into one value. -/
theorem OnGameStart_eq (as : AchievementSystem) (now : Int) :
    OnGameStart as now =
      checkAchievement
        (setProgress
          { as with
            statistics :=
              { as.statistics with
                GamesPlayed := as.statistics.GamesPlayed + 1,
                PlayStreak := newStreakVal as now,
                LastPlayDate := some now } }
          AchievementDedicated (newStreakVal as now))
        AchievementDedicated now := by
  unfold OnGameStart newStreakVal
  rcases h : as.statistics.LastPlayDate with _ | last <;>
    simp only [h] <;> split_ifs <;> rfl

/-- **C8.** `OnGameStart` increments the games-played counter and updates
the consecutive-day streak: +1 when the previous play is exactly one
(24h-truncated) day old, reset to 1 when it is more than one day old,
initialized to 1 when there is no previous timestamp; the Dedicated
achievement is then re-evaluated against the new streak (its progress is
set to the streak, and it unlocks exactly when it was already unlocked
or the new streak reaches its target). -/
theorem C8_onGameStart (as : AchievementSystem) (now : Int) :
    (OnGameStart as now).statistics.GamesPlayed =
      as.statistics.GamesPlayed + 1 ∧
    (as.statistics.LastPlayDate = none →
      (OnGameStart as now).statistics.PlayStreak = 1) ∧
    (∀ last, as.statistics.LastPlayDate = some last →
      ((now - last) / 24 = 1 →
        (OnGameStart as now).statistics.PlayStreak =
          as.statistics.PlayStreak + 1) ∧
      (1 < (now - last) / 24 →
        (OnGameStart as now).statistics.PlayStreak = 1)) ∧
    ((OnGameStart as now).achievements AchievementDedicated).Progress =
      (OnGameStart as now).statistics.PlayStreak ∧
    (((OnGameStart as now).achievements AchievementDedicated).Unlocked = true ↔
      ((as.achievements AchievementDedicated).Unlocked = true ∨
        (as.achievements AchievementDedicated).Target ≤
          (OnGameStart as now).statistics.PlayStreak)) := by
  have hstats : (OnGameStart as now).statistics =
      { as.statistics with
        GamesPlayed := as.statistics.GamesPlayed + 1,
        PlayStreak := newStreakVal as now,
        LastPlayDate := some now } := by
    rw [OnGameStart_eq, checkAchievement_stats, setProgress_stats]
  have hdedpre :
      (setProgress
        { as with
          statistics :=
            { as.statistics with
              GamesPlayed := as.statistics.GamesPlayed + 1,
              PlayStreak := newStreakVal as now,
              LastPlayDate := some now } }
        AchievementDedicated (newStreakVal as now)).achievements
          AchievementDedicated =
      { as.achievements AchievementDedicated with
        Progress := newStreakVal as now } := by
    simp [setProgress, updateAch]
  have hded := checkAchievement_ach_self
    (setProgress
      { as with
        statistics :=
          { as.statistics with
            GamesPlayed := as.statistics.GamesPlayed + 1,
            PlayStreak := newStreakVal as now,
            LastPlayDate := some now } }
      AchievementDedicated (newStreakVal as now))
    AchievementDedicated now (by decide)
  rw [hdedpre] at hded
  refine ⟨by rw [hstats], ?_, ?_, ?_, ?_⟩
  · intro h
    rw [hstats]
    show newStreakVal as now = 1
    unfold newStreakVal
    rw [h]
  · intro last h
    constructor
    · intro hd
      rw [hstats]
      show newStreakVal as now = _
      simp [newStreakVal, h, hd]
    · intro hd
      rw [hstats]
      show newStreakVal as now = 1
      simp only [newStreakVal, h]
      rw [if_neg (by omega), if_pos hd]
  · rw [OnGameStart_eq as now, hded, checkAchievement_stats, setProgress_stats]
    split_ifs <;> rfl
  · rw [OnGameStart_eq as now, hded, checkAchievement_stats, setProgress_stats]
    by_cases hU : (as.achievements AchievementDedicated).Unlocked = true
    · rw [if_neg (by simp [hU])]
      simp [hU]
    · by_cases hT : (as.achievements AchievementDedicated).Target ≤
          newStreakVal as now
      · rw [if_pos ⟨by simpa using hU, hT⟩]
        simp [hT]
      · rw [if_neg (fun hc => hT hc.2)]
        simp [hU, hT]

theorem C8_onGameStart_witness :
    (OnGameStart NewAchievementSystem 0).statistics.GamesPlayed = 1 ∧
    (OnGameStart NewAchievementSystem 0).statistics.PlayStreak = 1 :=
  ⟨by rw [(C8_onGameStart NewAchievementSystem 0).1]; decide,
   (C8_onGameStart NewAchievementSystem 0).2.1 (by decide)⟩

/-! ### Exact-shape equations for the unlock machinery -/

theorem checkAchievementBase_of_unlocked {s : AchievementSystem}
    {id : AchievementType} (now : Int)
    (h : (s.achievements id).Unlocked = true) :
    checkAchievementBase s id now = s := by
  simp only [checkAchievementBase]
  rw [if_pos h]

theorem checkAchievementBase_of_low {s : AchievementSystem}
    {id : AchievementType} (now : Int)
    (h1 : ¬ (s.achievements id).Unlocked = true)
    (h2 : ¬ (s.achievements id).Target ≤ (s.achievements id).Progress) :
    checkAchievementBase s id now = s := by
  simp only [checkAchievementBase]
  rw [if_neg h1, if_neg h2]

theorem checkAchievementBase_of_flip {s : AchievementSystem}
    {id : AchievementType} (now : Int)
    (h1 : ¬ (s.achievements id).Unlocked = true)
    (h2 : (s.achievements id).Target ≤ (s.achievements id).Progress) :
    checkAchievementBase s id now =
      { s with
        achievements := updateAch s.achievements id
          { s.achievements id with
            Unlocked := true, UnlockedAt := some now }
        notified := s.notified ++ [id] } := by
  simp only [checkAchievementBase]
  rw [if_neg h1, if_pos h2]

theorem checkMasterAchievement_of_unlocked {s : AchievementSystem} (now : Int)
    (h : (s.achievements AchievementMaster).Unlocked = true) :
    checkMasterAchievement s now = s := by
  simp only [checkMasterAchievement]
  rw [if_pos h]

theorem checkMasterAchievement_of_locked {s : AchievementSystem} (now : Int)
    (h : ¬ (s.achievements AchievementMaster).Unlocked = true) :
    checkMasterAchievement s now =
      checkAchievementBase
        { s with
          achievements := updateAch s.achievements AchievementMaster
            { s.achievements AchievementMaster with
              Progress := unlockedCountOthers s } }
        AchievementMaster now := by
  simp only [checkMasterAchievement]
  rw [if_neg h]

theorem checkAchievement_of_unlocked {s : AchievementSystem}
    {id : AchievementType} (now : Int)
    (h : (s.achievements id).Unlocked = true) :
    checkAchievement s id now = s := by
  simp only [checkAchievement]
  rw [if_pos h]

theorem checkAchievement_of_low {s : AchievementSystem}
    {id : AchievementType} (now : Int)
    (h1 : ¬ (s.achievements id).Unlocked = true)
    (h2 : ¬ (s.achievements id).Target ≤ (s.achievements id).Progress) :
    checkAchievement s id now = s := by
  simp only [checkAchievement]
  rw [if_neg h1, if_neg h2]

theorem checkAchievement_of_flip {s : AchievementSystem}
    {id : AchievementType} (now : Int)
    (h1 : ¬ (s.achievements id).Unlocked = true)
    (h2 : (s.achievements id).Target ≤ (s.achievements id).Progress) :
    checkAchievement s id now =
      checkMasterAchievement
        { s with
          achievements := updateAch s.achievements id
            { s.achievements id with
              Unlocked := true, UnlockedAt := some now }
          notified := s.notified ++ [id] } now := by
  simp only [checkAchievement]
  rw [if_neg h1, if_pos h2]

/-! ### One-shot unlock discipline (towards C7)

`EvolveOK s s'` captures the observable unlock discipline of one piece of
achievement-system work: targets never change, unlocked flags never fall,
a flag that rises does so with progress at or above target, and the
notification log gains exactly one entry per flag that rises. -/

def EvolveOK (s s' : AchievementSystem) : Prop :=
  (∀ j, (s'.achievements j).Target = (s.achievements j).Target) ∧
  (∀ j, (s.achievements j).Unlocked = true → (s'.achievements j).Unlocked = true) ∧
  (∀ j, (s'.achievements j).Unlocked = true →
    (s.achievements j).Unlocked = true ∨
    (s'.achievements j).Target ≤ (s'.achievements j).Progress) ∧
  (∀ j, s'.notified.count j = s.notified.count j +
    (if (s'.achievements j).Unlocked = true ∧ ¬ (s.achievements j).Unlocked = true
     then 1 else 0))

theorem EvolveOK_refl (s : AchievementSystem) : EvolveOK s s :=
  ⟨fun _ => rfl, fun _ h => h, fun _ h => Or.inl h, fun j => by simp⟩

theorem EvolveOK_of_frozen {s s' : AchievementSystem}
    (hach : s'.achievements = s.achievements) (hnot : s'.notified = s.notified) :
    EvolveOK s s' := by
  refine ⟨fun j => by rw [hach], fun j h => by rwa [hach],
    fun j h => Or.inl (by rwa [hach] at h), fun j => by rw [hach, hnot]; simp⟩

/-- Composition; the side condition says that whatever flipped during the
first leg keeps its progress through the second. -/
theorem EvolveOK_trans {a b c : AchievementSystem}
    (hab : EvolveOK a b) (hbc : EvolveOK b c)
    (hstab : ∀ j, (b.achievements j).Unlocked = true →
      ¬ (a.achievements j).Unlocked = true →
      (c.achievements j).Progress = (b.achievements j).Progress) :
    EvolveOK a c := by
  obtain ⟨t1, s1, f1, n1⟩ := hab
  obtain ⟨t2, s2, f2, n2⟩ := hbc
  refine ⟨fun j => (t2 j).trans (t1 j), fun j h => s2 j (s1 j h),
    fun j h => ?_, fun j => ?_⟩
  · rcases f2 j h with hb | hth
    · rcases f1 j hb with ha | hth'
      · exact Or.inl ha
      · by_cases ha : (a.achievements j).Unlocked = true
        · exact Or.inl ha
        · refine Or.inr ?_
          rw [t2 j, hstab j hb ha]
          exact hth'
    · exact Or.inr hth
  · rw [n2 j, n1 j]
    by_cases ha : (a.achievements j).Unlocked = true
    · have hb := s1 j ha
      have hc := s2 j hb
      simp [ha, hb, hc]
    · by_cases hb : (b.achievements j).Unlocked = true
      · have hc := s2 j hb
        simp [ha, hb, hc]
      · simp [ha, hb]

theorem EvolveOK_setProgress (s : AchievementSystem) (id : AchievementType)
    (v : Int) : EvolveOK s (setProgress s id v) := by
  refine ⟨fun j => ?_, fun j h => ?_, fun j h => Or.inl ?_, fun j => ?_⟩
  all_goals
    by_cases hj : j = id <;>
      simp [setProgress, updateAch, hj] at * <;> simp_all

theorem EvolveOK_base (s : AchievementSystem) (id : AchievementType)
    (now : Int) : EvolveOK s (checkAchievementBase s id now) := by
  by_cases h1 : (s.achievements id).Unlocked = true
  · rw [checkAchievementBase_of_unlocked now h1]
    exact EvolveOK_refl s
  · by_cases h2 : (s.achievements id).Target ≤ (s.achievements id).Progress
    · rw [checkAchievementBase_of_flip now h1 h2]
      refine ⟨fun j => ?_, fun j h => ?_, fun j h => ?_, fun j => ?_⟩
      · show (updateAch _ _ _ j).Target = _
        by_cases hj : j = id
        · subst hj
          rw [updateAch_self]
        · rw [updateAch_ne _ _ _ _ hj]
      · show (updateAch _ _ _ j).Unlocked = true
        by_cases hj : j = id
        · subst hj
          rw [updateAch_self]
        · rw [updateAch_ne _ _ _ _ hj]
          exact h
      · by_cases hj : j = id
        · subst hj
          exact Or.inr (by simpa [updateAch] using h2)
        · refine Or.inl ?_
          have h' : (updateAch s.achievements id
              { s.achievements id with
                Unlocked := true, UnlockedAt := some now } j).Unlocked = true := h
          rwa [updateAch_ne _ _ _ _ hj] at h'
      · by_cases hj : j = id
        · subst hj
          have hupd := updateAch_self s.achievements j
            { s.achievements j with Unlocked := true, UnlockedAt := some now }
          simp [List.count_append, hupd, h1]
        · have hupd := updateAch_ne s.achievements id
            { s.achievements id with Unlocked := true, UnlockedAt := some now }
            j hj
          have hcnt : [id].count j = 0 := List.count_eq_zero.mpr (by simp [hj])
          simp [List.count_append, hupd, hcnt]
    · rw [checkAchievementBase_of_low now h1 h2]
      exact EvolveOK_refl s

theorem EvolveOK_master (s : AchievementSystem) (now : Int) :
    EvolveOK s (checkMasterAchievement s now) := by
  by_cases h : (s.achievements AchievementMaster).Unlocked = true
  · rw [checkMasterAchievement_of_unlocked now h]
    exact EvolveOK_refl s
  · rw [checkMasterAchievement_of_locked now h]
    set s1 : AchievementSystem :=
      { s with
        achievements := updateAch s.achievements AchievementMaster
          { s.achievements AchievementMaster with
            Progress := unlockedCountOthers s } } with hs1
    have hab : EvolveOK s s1 := by
      refine ⟨fun j => ?_, fun j hu => ?_, fun j hu => Or.inl ?_, fun j => ?_⟩
      all_goals
        by_cases hj : j = AchievementMaster <;>
          simp [hs1, updateAch, hj] at * <;> simp_all
    have hbc : EvolveOK s1 (checkAchievementBase s1 AchievementMaster now) :=
      EvolveOK_base s1 AchievementMaster now
    refine EvolveOK_trans hab hbc ?_
    intro j hju hja
    exfalso
    by_cases hj : j = AchievementMaster
    · subst hj
      rw [hs1] at hju
      simp only [updateAch_self] at hju
      exact h (by simpa using hju)
    · rw [hs1] at hju
      simp only [updateAch_ne _ _ _ _ hj] at hju
      exact hja hju

theorem EvolveOK_check (s : AchievementSystem) (id : AchievementType)
    (now : Int) : EvolveOK s (checkAchievement s id now) := by
  by_cases h1 : (s.achievements id).Unlocked = true
  · rw [checkAchievement_of_unlocked now h1]
    exact EvolveOK_refl s
  · by_cases h2 : (s.achievements id).Target ≤ (s.achievements id).Progress
    · rw [checkAchievement_of_flip now h1 h2]
      set s1 : AchievementSystem :=
        { s with
          achievements := updateAch s.achievements id
            { s.achievements id with
              Unlocked := true, UnlockedAt := some now }
          notified := s.notified ++ [id] } with hs1
      have hab : EvolveOK s s1 := by
        refine ⟨fun j => ?_, fun j hu => ?_, fun j hu => ?_, fun j => ?_⟩
        · by_cases hj : j = id <;> simp [hs1, updateAch, hj]
        · by_cases hj : j = id <;> simp [hs1, updateAch, hj, hu]
        · by_cases hj : j = id
          · subst hj
            exact Or.inr (by simpa [hs1, updateAch] using h2)
          · rw [hs1]
            simp only [updateAch, if_neg hj] at hu ⊢
            exact Or.inl hu
        · by_cases hj : j = id
          · subst hj
            have hupd := updateAch_self s.achievements j
              { s.achievements j with Unlocked := true, UnlockedAt := some now }
            simp [hs1, List.count_append, hupd, h1]
          · have hupd := updateAch_ne s.achievements id
              { s.achievements id with Unlocked := true, UnlockedAt := some now }
              j hj
            have hcnt : [id].count j = 0 := List.count_eq_zero.mpr (by simp [hj])
            simp [hs1, List.count_append, hupd, hcnt]
      refine EvolveOK_trans hab (EvolveOK_master s1 now) ?_
      intro j hju hja
      -- whatever flipped in the first leg is `id`; the master pass never
      -- rewrites the progress of an unlocked achievement
      by_cases hM : (s1.achievements AchievementMaster).Unlocked = true
      · rw [checkMasterAchievement_of_unlocked now hM]
      · rw [checkMasterAchievement_of_locked now hM]
        by_cases hjM : j = AchievementMaster
        · subst hjM
          exact absurd hju hM
        · rw [checkAchievementBase_ach_ne _ _ _ _ hjM]
          show (updateAch _ _ _ j).Progress = _
          rw [updateAch_ne _ _ _ _ hjM]
    · rw [checkAchievement_of_low now h1 h2]
      exact EvolveOK_refl s

theorem uCO_congr {s s' : AchievementSystem}
    (h : ∀ j, j ≠ AchievementMaster →
      (s'.achievements j).Unlocked = (s.achievements j).Unlocked) :
    unlockedCountOthers s' = unlockedCountOthers s := by
  unfold unlockedCountOthers
  congr 1
  apply congrArg
  apply List.filter_congr
  intro x _
  by_cases hx : x = AchievementMaster
  · simp [hx]
  · simp [hx, h x hx]

theorem uCO_mono {s s' : AchievementSystem}
    (h : ∀ j, (s.achievements j).Unlocked = true →
      (s'.achievements j).Unlocked = true) :
    unlockedCountOthers s ≤ unlockedCountOthers s' := by
  unfold unlockedCountOthers
  have hsub := @List.monotone_filter_right AchievementType
    allAchievementTypes
    (fun id => decide (id ≠ AchievementMaster ∧
      (s.achievements id).Unlocked = true))
    (fun id => decide (id ≠ AchievementMaster ∧
      (s'.achievements id).Unlocked = true))
    (fun a ha => by
      simp only [decide_eq_true_eq] at ha ⊢
      exact ⟨ha.1, h a ha.2⟩)
  have := hsub.length_le
  omega

/-- If the master achievement is already unlocked, no `checkAchievement`
call touches its record. -/
theorem checkAchievement_master_unlocked {s : AchievementSystem}
    {id : AchievementType} (now : Int) (hid : id ≠ AchievementMaster)
    (h : (s.achievements AchievementMaster).Unlocked = true) :
    (checkAchievement s id now).achievements AchievementMaster =
      s.achievements AchievementMaster := by
  by_cases h1 : (s.achievements id).Unlocked = true
  · rw [checkAchievement_of_unlocked now h1]
  · by_cases h2 : (s.achievements id).Target ≤ (s.achievements id).Progress
    · rw [checkAchievement_of_flip now h1 h2]
      have hMne : AchievementMaster ≠ id := fun hc => hid hc.symm
      have hM1 : (({ s with
          achievements := updateAch s.achievements id
            { s.achievements id with
              Unlocked := true, UnlockedAt := some now }
          notified := s.notified ++ [id] } :
            AchievementSystem).achievements AchievementMaster) =
          s.achievements AchievementMaster := updateAch_ne _ _ _ _ hMne
      rw [checkMasterAchievement_of_unlocked now (by rw [hM1]; exact h), hM1]
    · rw [checkAchievement_of_low now h1 h2]

/-- The ach-level invariant: any achievement at or past its target is
unlocked, and the notification log holds exactly one entry per unlocked
achievement. -/
def achOK (s : AchievementSystem) : Prop :=
  ∀ j, ((s.achievements j).Target ≤ (s.achievements j).Progress →
        (s.achievements j).Unlocked = true) ∧
      (s.notified.count j = if (s.achievements j).Unlocked = true then 1 else 0)

/-- The notification half of `achOK` survives any `EvolveOK` step. -/
theorem achOK_count_step {s s' : AchievementSystem} (hok : achOK s)
    (hev : EvolveOK s s') :
    ∀ j, s'.notified.count j =
      if (s'.achievements j).Unlocked = true then 1 else 0 := by
  intro j
  obtain ⟨_, hsticky, _, hcount⟩ := hev
  rw [hcount j, (hok j).2]
  by_cases ha : (s.achievements j).Unlocked = true
  · simp [ha, hsticky j ha]
  · by_cases hb : (s'.achievements j).Unlocked = true
    · simp [ha, hb]
    · simp [ha, hb]

theorem setProgress_ach_self (s : AchievementSystem) (id : AchievementType)
    (v : Int) : (setProgress s id v).achievements id =
      { s.achievements id with Progress := v } := by
  simp [setProgress, updateAch]

theorem setProgress_ach_ne (s : AchievementSystem) (id : AchievementType)
    (v : Int) (j : AchievementType) (h : j ≠ id) :
    (setProgress s id v).achievements j = s.achievements j :=
  updateAch_ne _ _ _ _ h

theorem setProgress_notified (s : AchievementSystem) (id : AchievementType)
    (v : Int) : (setProgress s id v).notified = s.notified := rfl

/-- The `setProgress v; checkAchievement` pattern every handler uses. -/
theorem bump_spec (s : AchievementSystem) (id : AchievementType) (v : Int)
    (now : Int) (hid : id ≠ AchievementMaster) (hok : achOK s)
    (hML : (s.achievements AchievementMaster).Progress ≤
      unlockedCountOthers s) :
    EvolveOK s (checkAchievement (setProgress s id v) id now) ∧
    achOK (checkAchievement (setProgress s id v) id now) ∧
    (checkAchievement (setProgress s id v) id now).statistics =
      s.statistics ∧
    (∀ j, j ≠ id → j ≠ AchievementMaster →
      (checkAchievement (setProgress s id v) id now).achievements j =
        s.achievements j) ∧
    ((checkAchievement (setProgress s id v) id now).achievements id).Progress
      = v ∧
    ((s.achievements AchievementMaster).Unlocked = true →
      (checkAchievement (setProgress s id v) id now).achievements
        AchievementMaster = s.achievements AchievementMaster) ∧
    ((checkAchievement (setProgress s id v) id now).achievements
        AchievementMaster).Progress ≤
      unlockedCountOthers (checkAchievement (setProgress s id v) id now) ∧
    (s.achievements AchievementMaster).Progress ≤
      ((checkAchievement (setProgress s id v) id now).achievements
        AchievementMaster).Progress := by
  have hMne : AchievementMaster ≠ id := fun hc => hid hc.symm
  have hs2self := setProgress_ach_self s id v
  have hs2M : (setProgress s id v).achievements AchievementMaster =
      s.achievements AchievementMaster := setProgress_ach_ne s id v _ hMne
  have hev : EvolveOK s (checkAchievement (setProgress s id v) id now) := by
    refine EvolveOK_trans (EvolveOK_setProgress s id v)
      (EvolveOK_check (setProgress s id v) id now) ?_
    intro j hj2 hj1
    exfalso
    apply hj1
    by_cases hj : j = id
    · subst hj
      rw [hs2self] at hj2
      exact hj2
    · rw [setProgress_ach_ne s id v j hj] at hj2
      exact hj2
  have hcnt := achOK_count_step hok hev
  by_cases hu : (s.achievements id).Unlocked = true
  · -- already unlocked: the check is a no-op on the bumped state
    have hu2 : ((setProgress s id v).achievements id).Unlocked = true := by
      rw [hs2self]
      exact hu
    have heq : checkAchievement (setProgress s id v) id now =
        setProgress s id v := checkAchievement_of_unlocked now hu2
    rw [heq] at hcnt ⊢
    have huCO : unlockedCountOthers (setProgress s id v) =
        unlockedCountOthers s := by
      apply uCO_congr
      intro j _
      by_cases hj : j = id
      · subst hj
        rw [hs2self]
      · rw [setProgress_ach_ne s id v j hj]
    refine ⟨by rwa [heq] at hev, ?_, rfl,
      fun j hj _ => setProgress_ach_ne s id v j hj, by rw [hs2self], ?_, ?_, ?_⟩
    · intro j
      refine ⟨?_, hcnt j⟩
      by_cases hj : j = id
      · subst hj
        rw [hs2self]
        intro _
        exact hu
      · rw [setProgress_ach_ne s id v j hj]
        exact (hok j).1
    · intro _
      exact hs2M
    · rw [hs2M, huCO]
      exact hML
    · rw [hs2M]
  · by_cases hT : (s.achievements id).Target ≤ v
    · -- the bump flips `id`; the master cascade runs
      have hu2 : ¬ ((setProgress s id v).achievements id).Unlocked = true := by
        rw [hs2self]
        exact hu
      have hT2 : ((setProgress s id v).achievements id).Target ≤
          ((setProgress s id v).achievements id).Progress := by
        rw [hs2self]
        exact hT
      have heq := checkAchievement_of_flip now hu2 hT2
      -- the intermediate state with id freshly unlocked
      set s1 : AchievementSystem :=
        { setProgress s id v with
          achievements := updateAch (setProgress s id v).achievements id
            { (setProgress s id v).achievements id with
              Unlocked := true, UnlockedAt := some now }
          notified := (setProgress s id v).notified ++ [id] } with hs1def
      have hs1id : s1.achievements id =
          { (setProgress s id v).achievements id with
            Unlocked := true, UnlockedAt := some now } := updateAch_self _ _ _
      have hs1ne : ∀ j, j ≠ id → s1.achievements j = s.achievements j := by
        intro j hj
        show updateAch _ _ _ j = _
        rw [updateAch_ne _ _ _ _ hj]
        exact setProgress_ach_ne s id v j hj
      have hs1M : s1.achievements AchievementMaster =
          s.achievements AchievementMaster := hs1ne _ hMne
      have huCO1 : unlockedCountOthers s ≤ unlockedCountOthers s1 := by
        apply uCO_mono
        intro j hju
        by_cases hj : j = id
        · subst hj
          rw [hs1id]
        · rw [hs1ne j hj]
          exact hju
      by_cases hM : (s.achievements AchievementMaster).Unlocked = true
      · -- master already unlocked: cascade is a no-op
        have hM1 : (s1.achievements AchievementMaster).Unlocked = true := by
          rw [hs1M]
          exact hM
        have heq2 : checkAchievement (setProgress s id v) id now = s1 := by
          rw [heq, checkMasterAchievement_of_unlocked now hM1]
        rw [heq2] at hcnt ⊢
        have huCOs1 : unlockedCountOthers s ≤ unlockedCountOthers s1 := huCO1
        refine ⟨by rwa [heq2] at hev, ?_, rfl, fun j hj _ => hs1ne j hj,
          by rw [hs1id, hs2self], fun _ => hs1M, ?_, by rw [hs1M]⟩
        · intro j
          refine ⟨?_, hcnt j⟩
          by_cases hj : j = id
          · subst hj
            rw [hs1id]
            intro _
            rfl
          · rw [hs1ne j hj]
            exact (hok j).1
        · rw [hs1M]
          exact le_trans hML huCOs1
      · -- master still locked: its progress is recomputed and re-checked
        have hM1 : ¬ (s1.achievements AchievementMaster).Unlocked = true := by
          rw [hs1M]
          exact hM
        have heq2 : checkAchievement (setProgress s id v) id now =
            checkAchievementBase
              { s1 with
                achievements := updateAch s1.achievements AchievementMaster
                  { s1.achievements AchievementMaster with
                    Progress := unlockedCountOthers s1 } }
              AchievementMaster now := by
          rw [heq, checkMasterAchievement_of_locked now hM1]
        set s3 : AchievementSystem :=
          { s1 with
            achievements := updateAch s1.achievements AchievementMaster
              { s1.achievements AchievementMaster with
                Progress := unlockedCountOthers s1 } } with hs3def
        have hs3M : s3.achievements AchievementMaster =
            { s1.achievements AchievementMaster with
              Progress := unlockedCountOthers s1 } := by
          rw [hs3def]
          simp only [updateAch_self]
        have hs3ne : ∀ j, j ≠ AchievementMaster →
            s3.achievements j = s1.achievements j := by
          intro j hj
          show updateAch _ _ _ j = _
          rw [updateAch_ne _ _ _ _ hj]
        -- the final state: either s3 or s3 with the master flipped
        have hfinal : ∀ j, j ≠ AchievementMaster →
            (checkAchievement (setProgress s id v) id now).achievements j =
              s1.achievements j := by
          intro j hj
          rw [heq2, checkAchievementBase_ach_ne _ _ _ _ hj]
          exact hs3ne j hj
        have hfinalM :
            ((checkAchievement (setProgress s id v) id now).achievements
              AchievementMaster).Progress = unlockedCountOthers s1 ∧
            (((checkAchievement (setProgress s id v) id now).achievements
                AchievementMaster).Target ≤
              ((checkAchievement (setProgress s id v) id now).achievements
                AchievementMaster).Progress →
              ((checkAchievement (setProgress s id v) id now).achievements
                AchievementMaster).Unlocked = true) := by
          rw [heq2]
          by_cases hF : (s3.achievements AchievementMaster).Target ≤
              (s3.achievements AchievementMaster).Progress
          · have hMu3 : ¬ (s3.achievements AchievementMaster).Unlocked = true := by
              rw [hs3M]
              exact hM1
            rw [checkAchievementBase_of_flip now hMu3 hF]
            constructor
            · show (updateAch _ _ _ _).Progress = _
              rw [updateAch_self]
              show (s3.achievements AchievementMaster).Progress = _
              rw [hs3M]
            · intro _
              show (updateAch _ _ _ _).Unlocked = true
              rw [updateAch_self]
          · have hMu3 : ¬ (s3.achievements AchievementMaster).Unlocked = true := by
              rw [hs3M]
              exact hM1
            rw [checkAchievementBase_of_low now hMu3 hF]
            refine ⟨by rw [hs3M], fun hc => absurd hc hF⟩
        have huCOfin : unlockedCountOthers
            (checkAchievement (setProgress s id v) id now) =
            unlockedCountOthers s1 := by
          apply uCO_congr
          intro j hj
          rw [hfinal j hj]
        refine ⟨hev, ?_, ?_, ?_, ?_, ?_, ?_, ?_⟩
        · intro j
          refine ⟨?_, hcnt j⟩
          by_cases hjM : j = AchievementMaster
          · subst hjM
            exact hfinalM.2
          · rw [hfinal j hjM]
            by_cases hj : j = id
            · subst hj
              rw [hs1id]
              intro _
              rfl
            · rw [hs1ne j hj]
              exact (hok j).1
        · rw [heq2, checkAchievementBase_stats]
          rfl
        · intro j hj1 hj2
          rw [hfinal j hj2]
          exact hs1ne j hj1
        · rw [hfinal id hid, hs1id, hs2self]
        · intro hMu
          exact absurd hMu hM
        · rw [hfinalM.1, huCOfin]
        · rw [hfinalM.1]
          exact le_trans hML huCO1
    · -- progress still below target: the check leaves the state alone
      have hu2 : ¬ ((setProgress s id v).achievements id).Unlocked = true := by
        rw [hs2self]
        exact hu
      have hT2 : ¬ ((setProgress s id v).achievements id).Target ≤
          ((setProgress s id v).achievements id).Progress := by
        rw [hs2self]
        exact hT
      have heq : checkAchievement (setProgress s id v) id now =
          setProgress s id v := checkAchievement_of_low now hu2 hT2
      rw [heq] at hcnt ⊢
      have huCO : unlockedCountOthers (setProgress s id v) =
          unlockedCountOthers s := by
        apply uCO_congr
        intro j _
        by_cases hj : j = id
        · subst hj
          rw [hs2self]
        · rw [setProgress_ach_ne s id v j hj]
      refine ⟨by rwa [heq] at hev, ?_, rfl,
        fun j hj _ => setProgress_ach_ne s id v j hj, by rw [hs2self], ?_, ?_, ?_⟩
      · intro j
        refine ⟨?_, hcnt j⟩
        by_cases hj : j = id
        · subst hj
          rw [hs2self]
          intro hc
          exact absurd hc hT
        · rw [setProgress_ach_ne s id v j hj]
          exact (hok j).1
      · intro _
        exact hs2M
      · rw [hs2M, huCO]
        exact hML
      · rw [hs2M]

/-- Unlock discipline relative to a fixed start state `s`, plus the two
master-achievement side invariants every handler stage maintains. -/
def ChainOK (s t : AchievementSystem) : Prop :=
  EvolveOK s t ∧ achOK t ∧
  (t.achievements AchievementMaster).Progress ≤ unlockedCountOthers t ∧
  (s.achievements AchievementMaster).Progress ≤
    (t.achievements AchievementMaster).Progress

theorem ChainOK_refl {s : AchievementSystem} (hok : achOK s)
    (hML : (s.achievements AchievementMaster).Progress ≤
      unlockedCountOthers s) : ChainOK s s :=
  ⟨EvolveOK_refl s, hok, hML, le_refl _⟩

theorem ChainOK_frozen {s t t' : AchievementSystem} (h : ChainOK s t)
    (hach : t'.achievements = t.achievements)
    (hnot : t'.notified = t.notified) : ChainOK s t' := by
  obtain ⟨hev, hok, hML, hMm⟩ := h
  have huCO : unlockedCountOthers t' = unlockedCountOthers t :=
    uCO_congr (fun j _ => by rw [hach])
  refine ⟨EvolveOK_trans hev (EvolveOK_of_frozen hach hnot) ?_, ?_, ?_, ?_⟩
  · intro j _ _
    rw [hach]
  · intro j
    have := hok j
    rw [← hach, ← hnot] at this
    exact this
  · rw [hach, huCO]
    exact hML
  · rw [hach]
    exact hMm

theorem ChainOK_bump {s t : AchievementSystem} (h : ChainOK s t)
    (id : AchievementType) (v now : Int) (hid : id ≠ AchievementMaster)
    (hnoflip : (t.achievements id).Unlocked = true →
      (s.achievements id).Unlocked = true) :
    ChainOK s (checkAchievement (setProgress t id v) id now) ∧
    (∀ j, j ≠ id → j ≠ AchievementMaster →
      (checkAchievement (setProgress t id v) id now).achievements j =
        t.achievements j) ∧
    ((checkAchievement (setProgress t id v) id now).achievements id).Progress
      = v ∧
    (checkAchievement (setProgress t id v) id now).statistics =
      t.statistics := by
  obtain ⟨hev, hok, hML, hMm⟩ := h
  obtain ⟨bev, bok, bstats, bne, bprog, bMu, bML, bMm⟩ :=
    bump_spec t id v now hid hok hML
  refine ⟨⟨EvolveOK_trans hev bev ?_, bok, bML, le_trans hMm bMm⟩,
    bne, bprog, bstats⟩
  intro j hj hsj
  by_cases hjid : j = id
  · subst hjid
    exact absurd (hnoflip hj) hsj
  · by_cases hjM : j = AchievementMaster
    · subst hjM
      rw [bMu hj]
    · rw [bne j hjid hjM]

/-- Writing an achievement's current progress back is the identity. -/
theorem setProgress_self (t : AchievementSystem) (id : AchievementType) :
    setProgress t id ((t.achievements id).Progress) = t := by
  have hfun : updateAch t.achievements id
      { t.achievements id with Progress := (t.achievements id).Progress } =
      t.achievements := by
    funext i
    unfold updateAch
    by_cases hi : i = id
    · subst hi
      simp
    · simp [hi]
  show ({ t with
    achievements := updateAch t.achievements id
      { t.achievements id with
        Progress := (t.achievements id).Progress } } : AchievementSystem) = t
  rw [hfun]

theorem ChainOK_check {s t : AchievementSystem} (h : ChainOK s t)
    (id : AchievementType) (now : Int) (hid : id ≠ AchievementMaster)
    (hnoflip : (t.achievements id).Unlocked = true →
      (s.achievements id).Unlocked = true) :
    ChainOK s (checkAchievement t id now) ∧
    (∀ j, j ≠ id → j ≠ AchievementMaster →
      (checkAchievement t id now).achievements j = t.achievements j) ∧
    ((checkAchievement t id now).achievements id).Progress =
      (t.achievements id).Progress ∧
    (checkAchievement t id now).statistics = t.statistics := by
  have hrw : checkAchievement t id now =
      checkAchievement (setProgress t id ((t.achievements id).Progress))
        id now := by
    rw [setProgress_self]
  rw [hrw]
  exact ChainOK_bump h id _ now hid hnoflip

/-- The statistics record after `OnGameWin`'s three unconditional updates. -/
def winStats1 (st0 : GameStatistics) (moves gameTime : Int) :
    GameStatistics :=
  { st0 with
    GamesWon := st0.GamesWon + 1,
    TotalMoves := st0.TotalMoves + moves,
    TotalTime := st0.TotalTime + gameTime }

def winStats2 (st0 : GameStatistics) (moves gameTime : Int) :
    GameStatistics :=
  if (winStats1 st0 moves gameTime).BestTime = 0 ∨
      gameTime < (winStats1 st0 moves gameTime).BestTime then
    { winStats1 st0 moves gameTime with BestTime := gameTime }
  else winStats1 st0 moves gameTime

def winStats (st0 : GameStatistics) (moves gameTime : Int) :
    GameStatistics :=
  if moves < (winStats2 st0 moves gameTime).FewestMoves then
    { winStats2 st0 moves gameTime with FewestMoves := moves }
  else winStats2 st0 moves gameTime

theorem winStats_fields (st0 : GameStatistics) (moves gameTime : Int) :
    (winStats st0 moves gameTime).GamesWon = st0.GamesWon + 1 ∧
    (winStats st0 moves gameTime).TimeAttackWins = st0.TimeAttackWins ∧
    (winStats st0 moves gameTime).PerfectGames = st0.PerfectGames ∧
    (winStats st0 moves gameTime).BridgesBuilt = st0.BridgesBuilt ∧
    (winStats st0 moves gameTime).LevelsCreated = st0.LevelsCreated ∧
    (winStats st0 moves gameTime).PlayStreak = st0.PlayStreak := by
  unfold winStats winStats2
  split_ifs <;> exact ⟨rfl, rfl, rfl, rfl, rfl, rfl⟩

/-- Each progress counter mirrors its statistics field the way the handlers
write it (the master's mirrors a lower bound on the live unlocked count). -/
def progressLink (s : AchievementSystem) : Prop :=
  (s.achievements AchievementFirstWin).Progress =
    min 1 s.statistics.GamesWon ∧
  ((s.achievements AchievementSpeedrun).Progress = 0 ∨
    (s.achievements AchievementSpeedrun).Progress = 1) ∧
  (s.achievements AchievementEfficient).Progress = 0 ∧
  (s.achievements AchievementTimeAttackWin).Progress =
    s.statistics.TimeAttackWins ∧
  (s.achievements AchievementPerfectGame).Progress =
    s.statistics.PerfectGames ∧
  (s.achievements AchievementBridgeBuilder).Progress =
    s.statistics.BridgesBuilt ∧
  (s.achievements AchievementIslandHopper).Progress =
    s.statistics.GamesWon ∧
  (s.achievements AchievementLevelCreator).Progress =
    s.statistics.LevelsCreated ∧
  (s.achievements AchievementDedicated).Progress =
    s.statistics.PlayStreak ∧
  (s.achievements AchievementMaster).Progress ≤ unlockedCountOthers s

theorem OnBridgeBuilt_ok (s : AchievementSystem) (now : Int)
    (hok : achOK s) (hlink : progressLink s) :
    ChainOK s (OnBridgeBuilt s now) ∧ progressLink (OnBridgeBuilt s now) ∧
    (∀ j, j ≠ AchievementDedicated →
      (s.achievements j).Progress ≤
        ((OnBridgeBuilt s now).achievements j).Progress) := by
  obtain ⟨hFW, hSR, hEF, hTA, hPG, hBB, hIH, hLC, hDE, hMA⟩ := hlink
  set t1 : AchievementSystem :=
    { s with statistics :=
      { s.statistics with
        BridgesBuilt := s.statistics.BridgesBuilt + 1 } } with ht1
  have hC1 : ChainOK s t1 := ChainOK_frozen (ChainOK_refl hok hMA) rfl rfl
  obtain ⟨hC2, hU2, hP2, hS2⟩ := ChainOK_bump hC1 AchievementBridgeBuilder
    (t1.statistics.BridgesBuilt) now (by decide) (fun h => h)
  have hdef : OnBridgeBuilt s now = checkAchievement
      (setProgress t1 AchievementBridgeBuilder t1.statistics.BridgesBuilt)
      AchievementBridgeBuilder now := rfl
  rw [hdef]
  have hUs : ∀ j, j ≠ AchievementBridgeBuilder → j ≠ AchievementMaster →
      (checkAchievement
        (setProgress t1 AchievementBridgeBuilder t1.statistics.BridgesBuilt)
        AchievementBridgeBuilder now).achievements j = s.achievements j :=
    fun j h1 h2 => hU2 j h1 h2
  refine ⟨hC2, ⟨?_, ?_, ?_, ?_, ?_, ?_, ?_, ?_, ?_, hC2.2.2.1⟩, ?_⟩
  · rw [hUs _ (by decide) (by decide), hS2]
    exact hFW
  · rw [hUs _ (by decide) (by decide)]
    exact hSR
  · rw [hUs _ (by decide) (by decide)]
    exact hEF
  · rw [hUs _ (by decide) (by decide), hS2]
    exact hTA
  · rw [hUs _ (by decide) (by decide), hS2]
    exact hPG
  · rw [hP2, hS2]
  · rw [hUs _ (by decide) (by decide), hS2]
    exact hIH
  · rw [hUs _ (by decide) (by decide), hS2]
    exact hLC
  · rw [hUs _ (by decide) (by decide), hS2]
    exact hDE
  · intro j hj
    by_cases hjB : j = AchievementBridgeBuilder
    · subst hjB
      rw [hP2, hBB]
      show s.statistics.BridgesBuilt ≤ s.statistics.BridgesBuilt + 1
      omega
    · by_cases hjM : j = AchievementMaster
      · subst hjM
        exact hC2.2.2.2
      · rw [hUs j hjB hjM]

theorem OnLevelCreated_ok (s : AchievementSystem) (now : Int)
    (hok : achOK s) (hlink : progressLink s) :
    ChainOK s (OnLevelCreated s now) ∧ progressLink (OnLevelCreated s now) ∧
    (∀ j, j ≠ AchievementDedicated →
      (s.achievements j).Progress ≤
        ((OnLevelCreated s now).achievements j).Progress) := by
  obtain ⟨hFW, hSR, hEF, hTA, hPG, hBB, hIH, hLC, hDE, hMA⟩ := hlink
  set t1 : AchievementSystem :=
    { s with statistics :=
      { s.statistics with
        LevelsCreated := s.statistics.LevelsCreated + 1 } } with ht1
  have hC1 : ChainOK s t1 := ChainOK_frozen (ChainOK_refl hok hMA) rfl rfl
  obtain ⟨hC2, hU2, hP2, hS2⟩ := ChainOK_bump hC1 AchievementLevelCreator
    (t1.statistics.LevelsCreated) now (by decide) (fun h => h)
  have hdef : OnLevelCreated s now = checkAchievement
      (setProgress t1 AchievementLevelCreator t1.statistics.LevelsCreated)
      AchievementLevelCreator now := rfl
  rw [hdef]
  have hUs : ∀ j, j ≠ AchievementLevelCreator → j ≠ AchievementMaster →
      (checkAchievement
        (setProgress t1 AchievementLevelCreator t1.statistics.LevelsCreated)
        AchievementLevelCreator now).achievements j = s.achievements j :=
    fun j h1 h2 => hU2 j h1 h2
  refine ⟨hC2, ⟨?_, ?_, ?_, ?_, ?_, ?_, ?_, ?_, ?_, hC2.2.2.1⟩, ?_⟩
  · rw [hUs _ (by decide) (by decide), hS2]
    exact hFW
  · rw [hUs _ (by decide) (by decide)]
    exact hSR
  · rw [hUs _ (by decide) (by decide)]
    exact hEF
  · rw [hUs _ (by decide) (by decide), hS2]
    exact hTA
  · rw [hUs _ (by decide) (by decide), hS2]
    exact hPG
  · rw [hUs _ (by decide) (by decide), hS2]
    exact hBB
  · rw [hUs _ (by decide) (by decide), hS2]
    exact hIH
  · rw [hP2, hS2]
  · rw [hUs _ (by decide) (by decide), hS2]
    exact hDE
  · intro j hj
    by_cases hjL : j = AchievementLevelCreator
    · subst hjL
      rw [hP2, hLC]
      show s.statistics.LevelsCreated ≤ s.statistics.LevelsCreated + 1
      omega
    · by_cases hjM : j = AchievementMaster
      · subst hjM
        exact hC2.2.2.2
      · rw [hUs j hjL hjM]

theorem OnGameStart_ok (s : AchievementSystem) (now : Int)
    (hok : achOK s) (hlink : progressLink s) :
    ChainOK s (OnGameStart s now) ∧ progressLink (OnGameStart s now) ∧
    (∀ j, j ≠ AchievementDedicated →
      (s.achievements j).Progress ≤
        ((OnGameStart s now).achievements j).Progress) := by
  obtain ⟨hFW, hSR, hEF, hTA, hPG, hBB, hIH, hLC, hDE, hMA⟩ := hlink
  set t1 : AchievementSystem :=
    { s with statistics :=
      { s.statistics with
        GamesPlayed := s.statistics.GamesPlayed + 1,
        PlayStreak := newStreakVal s now,
        LastPlayDate := some now } } with ht1
  have hC1 : ChainOK s t1 := ChainOK_frozen (ChainOK_refl hok hMA) rfl rfl
  obtain ⟨hC2, hU2, hP2, hS2⟩ := ChainOK_bump hC1 AchievementDedicated
    (newStreakVal s now) now (by decide) (fun h => h)
  have hdef := OnGameStart_eq s now
  rw [hdef]
  have hUs : ∀ j, j ≠ AchievementDedicated → j ≠ AchievementMaster →
      (checkAchievement
        (setProgress t1 AchievementDedicated (newStreakVal s now))
        AchievementDedicated now).achievements j = s.achievements j :=
    fun j h1 h2 => hU2 j h1 h2
  refine ⟨hC2, ⟨?_, ?_, ?_, ?_, ?_, ?_, ?_, ?_, ?_, hC2.2.2.1⟩, ?_⟩
  · rw [hUs _ (by decide) (by decide), hS2]
    exact hFW
  · rw [hUs _ (by decide) (by decide)]
    exact hSR
  · rw [hUs _ (by decide) (by decide)]
    exact hEF
  · rw [hUs _ (by decide) (by decide), hS2]
    exact hTA
  · rw [hUs _ (by decide) (by decide), hS2]
    exact hPG
  · rw [hUs _ (by decide) (by decide), hS2]
    exact hBB
  · rw [hUs _ (by decide) (by decide), hS2]
    exact hIH
  · rw [hUs _ (by decide) (by decide), hS2]
    exact hLC
  · rw [hP2, hS2]
  · intro j hj
    by_cases hjM : j = AchievementMaster
    · subst hjM
      exact hC2.2.2.2
    · rw [hUs j hj hjM]

theorem OnGameWin_ok (s : AchievementSystem) (moves gameTime : Int)
    (ta perf : Bool) (now : Int)
    (hok : achOK s) (hlink : progressLink s) :
    ChainOK s (OnGameWin s moves gameTime ta perf now) ∧
    progressLink (OnGameWin s moves gameTime ta perf now) ∧
    (∀ j, j ≠ AchievementDedicated →
      (s.achievements j).Progress ≤
        ((OnGameWin s moves gameTime ta perf now).achievements j).Progress)
    := by
  obtain ⟨hFW, hSR, hEF, hTA, hPG, hBB, hIH, hLC, hDE, hMA⟩ := hlink
  obtain ⟨wGW, wTA, wPG, wBB, wLC, wPS⟩ :=
    winStats_fields s.statistics moves gameTime
  set t1 : AchievementSystem :=
    { s with statistics := winStats s.statistics moves gameTime } with ht1
  have hC1 : ChainOK s t1 := ChainOK_frozen (ChainOK_refl hok hMA) rfl rfl
  have h1GW : t1.statistics.GamesWon = s.statistics.GamesWon + 1 := wGW
  have h1TA : t1.statistics.TimeAttackWins = s.statistics.TimeAttackWins := wTA
  have h1PG : t1.statistics.PerfectGames = s.statistics.PerfectGames := wPG
  have h1BB : t1.statistics.BridgesBuilt = s.statistics.BridgesBuilt := wBB
  have h1LC : t1.statistics.LevelsCreated = s.statistics.LevelsCreated := wLC
  have h1PS : t1.statistics.PlayStreak = s.statistics.PlayStreak := wPS
  set t2 : AchievementSystem :=
    (if ta = true then
      checkAchievement
        (setProgress
          { t1 with statistics :=
            { t1.statistics with
              TimeAttackWins := t1.statistics.TimeAttackWins + 1 } }
          AchievementTimeAttackWin (t1.statistics.TimeAttackWins + 1))
        AchievementTimeAttackWin now
     else t1) with ht2
  have H2 : ChainOK s t2 ∧
      (∀ j, j ≠ AchievementTimeAttackWin → j ≠ AchievementMaster →
        t2.achievements j = s.achievements j) ∧
      t2.statistics.GamesWon = s.statistics.GamesWon + 1 ∧
      t2.statistics.PerfectGames = s.statistics.PerfectGames ∧
      t2.statistics.BridgesBuilt = s.statistics.BridgesBuilt ∧
      t2.statistics.LevelsCreated = s.statistics.LevelsCreated ∧
      t2.statistics.PlayStreak = s.statistics.PlayStreak ∧
      (ta = true →
        (t2.achievements AchievementTimeAttackWin).Progress =
          s.statistics.TimeAttackWins + 1 ∧
        t2.statistics.TimeAttackWins = s.statistics.TimeAttackWins + 1) ∧
      (ta = false →
        t2.achievements AchievementTimeAttackWin =
          s.achievements AchievementTimeAttackWin ∧
        t2.statistics.TimeAttackWins = s.statistics.TimeAttackWins) := by
    rcases Bool.eq_false_or_eq_true ta with hta | hta
    · have he : t2 = checkAchievement
          (setProgress
            { t1 with statistics :=
              { t1.statistics with
                TimeAttackWins := t1.statistics.TimeAttackWins + 1 } }
            AchievementTimeAttackWin (t1.statistics.TimeAttackWins + 1))
          AchievementTimeAttackWin now := by
        rw [ht2, hta]
        simp
      have hC1a : ChainOK s
          { t1 with statistics :=
            { t1.statistics with
              TimeAttackWins := t1.statistics.TimeAttackWins + 1 } } :=
        ChainOK_frozen hC1 rfl rfl
      obtain ⟨hC, hU, hP, hS⟩ := ChainOK_bump hC1a AchievementTimeAttackWin
        (t1.statistics.TimeAttackWins + 1) now (by decide) (fun h => h)
      rw [he]
      refine ⟨hC, fun j h1 h2 => hU j h1 h2, ?_, ?_, ?_, ?_, ?_, ?_, ?_⟩
      · rw [hS]
        exact h1GW
      · rw [hS]
        exact h1PG
      · rw [hS]
        exact h1BB
      · rw [hS]
        exact h1LC
      · rw [hS]
        exact h1PS
      · intro _
        constructor
        · rw [hP, h1TA]
        · rw [hS]
          show t1.statistics.TimeAttackWins + 1 =
            s.statistics.TimeAttackWins + 1
          rw [h1TA]
      · intro h
        rw [hta] at h
        exact absurd h (by simp)
    · have he : t2 = t1 := by
        rw [ht2, hta]
        simp
      rw [he]
      refine ⟨hC1, fun j _ _ => rfl, h1GW, h1PG, h1BB, h1LC, h1PS, ?_, ?_⟩
      · intro h
        rw [hta] at h
        exact absurd h (by simp)
      · intro _
        exact ⟨rfl, h1TA⟩
  obtain ⟨hC2, hU2, h2GW, h2PG, h2BB, h2LC, h2PS, h2taT, h2taF⟩ := H2
  set t3 : AchievementSystem :=
    (if perf = true then
      checkAchievement
        (checkAchievement
          (setProgress
            { t2 with statistics :=
              { t2.statistics with
                PerfectGames := t2.statistics.PerfectGames + 1 } }
            AchievementPerfectGame (t2.statistics.PerfectGames + 1))
          AchievementPerfectGame now)
        AchievementEfficient now
     else t2) with ht3
  have H3 : ChainOK s t3 ∧
      (∀ j, j ≠ AchievementPerfectGame → j ≠ AchievementEfficient →
        j ≠ AchievementMaster → t3.achievements j = t2.achievements j) ∧
      t3.statistics.GamesWon = s.statistics.GamesWon + 1 ∧
      t3.statistics.TimeAttackWins = t2.statistics.TimeAttackWins ∧
      t3.statistics.BridgesBuilt = s.statistics.BridgesBuilt ∧
      t3.statistics.LevelsCreated = s.statistics.LevelsCreated ∧
      t3.statistics.PlayStreak = s.statistics.PlayStreak ∧
      (t3.achievements AchievementEfficient).Progress =
        (s.achievements AchievementEfficient).Progress ∧
      (perf = true →
        (t3.achievements AchievementPerfectGame).Progress =
          s.statistics.PerfectGames + 1 ∧
        t3.statistics.PerfectGames = s.statistics.PerfectGames + 1) ∧
      (perf = false →
        t3.achievements AchievementPerfectGame =
          t2.achievements AchievementPerfectGame ∧
        t3.statistics.PerfectGames = s.statistics.PerfectGames) := by
    rcases Bool.eq_false_or_eq_true perf with hperf | hperf
    case inr =>
      have he : t3 = t2 := by
        rw [ht3, hperf]
        simp
      rw [he]
      refine ⟨hC2, fun j _ _ _ => rfl, h2GW, rfl, h2BB, h2LC, h2PS, ?_, ?_, ?_⟩
      · rw [hU2 _ (by decide) (by decide)]
      · intro h
        rw [hperf] at h
        exact absurd h (by simp)
      · intro _
        exact ⟨rfl, h2PG⟩
    case inl =>
      set t2a : AchievementSystem :=
        { t2 with statistics :=
          { t2.statistics with
            PerfectGames := t2.statistics.PerfectGames + 1 } } with ht2a
      set tb : AchievementSystem :=
        checkAchievement
          (setProgress t2a AchievementPerfectGame
            (t2.statistics.PerfectGames + 1))
          AchievementPerfectGame now with htb
      have he : t3 = checkAchievement tb AchievementEfficient now := by
        rw [ht3, hperf]
        simp
      have hC2a : ChainOK s t2a := ChainOK_frozen hC2 rfl rfl
      have hrecPG : t2a.achievements AchievementPerfectGame =
          s.achievements AchievementPerfectGame :=
        hU2 _ (by decide) (by decide)
      obtain ⟨hCb, hUb, hPb, hSb⟩ := ChainOK_bump hC2a AchievementPerfectGame
        (t2.statistics.PerfectGames + 1) now (by decide)
        (by intro h; rwa [hrecPG] at h)
      have hrecEF : tb.achievements AchievementEfficient =
          s.achievements AchievementEfficient :=
        (hUb _ (by decide) (by decide)).trans (hU2 _ (by decide) (by decide))
      obtain ⟨hCc, hUc, hPc, hSc⟩ := ChainOK_check hCb AchievementEfficient
        now (by decide) (by intro h; rwa [hrecEF] at h)
      rw [he]
      refine ⟨hCc, fun j h1 h2 h3 => (hUc j h2 h3).trans (hUb j h1 h3),
        ?_, ?_, ?_, ?_, ?_, ?_, ?_, ?_⟩
      · rw [hSc, hSb]
        exact h2GW
      · rw [hSc, hSb]
      · rw [hSc, hSb]
        exact h2BB
      · rw [hSc, hSb]
        exact h2LC
      · rw [hSc, hSb]
        exact h2PS
      · rw [hPc, hrecEF]
      · intro _
        constructor
        · rw [hUc _ (by decide) (by decide), hPb]
          show t2.statistics.PerfectGames + 1 = s.statistics.PerfectGames + 1
          rw [h2PG]
        · rw [hSc, hSb]
          show t2.statistics.PerfectGames + 1 = s.statistics.PerfectGames + 1
          rw [h2PG]
      · intro h
        rw [hperf] at h
        exact absurd h (by simp)
  obtain ⟨hC3, hU3, h3GW, h3TAW, h3BB, h3LC, h3PS, h3EF, h3pT, h3pF⟩ := H3
  set t4 : AchievementSystem :=
    checkAchievement
      (setProgress t3 AchievementFirstWin (min 1 t3.statistics.GamesWon))
      AchievementFirstWin now with ht4
  have hrecFW : t3.achievements AchievementFirstWin =
      s.achievements AchievementFirstWin :=
    (hU3 _ (by decide) (by decide) (by decide)).trans
      (hU2 _ (by decide) (by decide))
  obtain ⟨hC4, hU4, hP4, hS4⟩ := ChainOK_bump hC3 AchievementFirstWin
    (min 1 t3.statistics.GamesWon) now (by decide)
    (by intro h; rwa [hrecFW] at h)
  set t5 : AchievementSystem :=
    checkAchievement
      (setProgress t4 AchievementIslandHopper t4.statistics.GamesWon)
      AchievementIslandHopper now with ht5
  have hrecIH : t4.achievements AchievementIslandHopper =
      s.achievements AchievementIslandHopper :=
    (hU4 _ (by decide) (by decide)).trans
      ((hU3 _ (by decide) (by decide) (by decide)).trans
        (hU2 _ (by decide) (by decide)))
  obtain ⟨hC5, hU5, hP5, hS5⟩ := ChainOK_bump hC4 AchievementIslandHopper
    (t4.statistics.GamesWon) now (by decide)
    (by intro h; rwa [hrecIH] at h)
  set t6 : AchievementSystem :=
    (if gameTime < 30 * timeSecond then
      checkAchievement (setProgress t5 AchievementSpeedrun 1)
        AchievementSpeedrun now
     else t5) with ht6
  have H6 : ChainOK s t6 ∧
      (∀ j, j ≠ AchievementSpeedrun → j ≠ AchievementMaster →
        t6.achievements j = t5.achievements j) ∧
      t6.statistics = t5.statistics ∧
      (gameTime < 30 * timeSecond →
        (t6.achievements AchievementSpeedrun).Progress = 1) ∧
      (¬ gameTime < 30 * timeSecond →
        t6.achievements AchievementSpeedrun =
          t5.achievements AchievementSpeedrun) := by
    by_cases hfast : gameTime < 30 * timeSecond
    · have he : t6 = checkAchievement (setProgress t5 AchievementSpeedrun 1)
          AchievementSpeedrun now := by
        rw [ht6, if_pos hfast]
      have hrecSR : t5.achievements AchievementSpeedrun =
          s.achievements AchievementSpeedrun :=
        (hU5 _ (by decide) (by decide)).trans
          ((hU4 _ (by decide) (by decide)).trans
            ((hU3 _ (by decide) (by decide) (by decide)).trans
              (hU2 _ (by decide) (by decide))))
      obtain ⟨hC6, hU6, hP6, hS6⟩ := ChainOK_bump hC5 AchievementSpeedrun 1
        now (by decide) (by intro h; rwa [hrecSR] at h)
      rw [he]
      exact ⟨hC6, hU6, hS6, fun _ => hP6, fun h => absurd hfast h⟩
    · have he : t6 = t5 := by
        rw [ht6, if_neg hfast]
      rw [he]
      exact ⟨hC5, fun j _ _ => rfl, rfl, fun h => absurd h hfast, fun _ => rfl⟩
  obtain ⟨hC6, hU6, hS6, h6T, h6F⟩ := H6
  have hdef : OnGameWin s moves gameTime ta perf now = t6 := rfl
  rw [hdef]
  have hSfin : t6.statistics = t3.statistics := by
    rw [hS6, hS5, hS4]
  refine ⟨hC6, ⟨?_, ?_, ?_, ?_, ?_, ?_, ?_, ?_, ?_, hC6.2.2.1⟩, ?_⟩
  · -- FirstWin link
    rw [hU6 _ (by decide) (by decide), hU5 _ (by decide) (by decide), hP4,
      hSfin]
  · -- Speedrun link
    by_cases hfast : gameTime < 30 * timeSecond
    · exact Or.inr (h6T hfast)
    · rw [h6F hfast, hU5 _ (by decide) (by decide),
        hU4 _ (by decide) (by decide),
        hU3 _ (by decide) (by decide) (by decide),
        hU2 _ (by decide) (by decide)]
      exact hSR
  · -- Efficient link
    rw [hU6 _ (by decide) (by decide), hU5 _ (by decide) (by decide),
      hU4 _ (by decide) (by decide), h3EF, hEF]
  · -- TimeAttackWin link
    rcases Bool.eq_false_or_eq_true ta with hta | hta
    · obtain ⟨hprog, hst⟩ := h2taT hta
      rw [hU6 _ (by decide) (by decide), hU5 _ (by decide) (by decide),
        hU4 _ (by decide) (by decide),
        hU3 _ (by decide) (by decide) (by decide), hprog, hSfin, h3TAW, hst]
    · obtain ⟨hrec, hst⟩ := h2taF hta
      rw [hU6 _ (by decide) (by decide), hU5 _ (by decide) (by decide),
        hU4 _ (by decide) (by decide),
        hU3 _ (by decide) (by decide) (by decide), hrec, hTA, hSfin, h3TAW,
        hst]
  · -- PerfectGame link
    rcases Bool.eq_false_or_eq_true perf with hperf | hperf
    · obtain ⟨hprog, hst⟩ := h3pT hperf
      rw [hU6 _ (by decide) (by decide), hU5 _ (by decide) (by decide),
        hU4 _ (by decide) (by decide), hprog, hSfin, hst]
    · obtain ⟨hrec, hst⟩ := h3pF hperf
      rw [hU6 _ (by decide) (by decide), hU5 _ (by decide) (by decide),
        hU4 _ (by decide) (by decide), hrec, hU2 _ (by decide) (by decide),
        hPG, hSfin, hst]
  · -- BridgeBuilder link
    rw [hU6 _ (by decide) (by decide), hU5 _ (by decide) (by decide),
      hU4 _ (by decide) (by decide),
      hU3 _ (by decide) (by decide) (by decide),
      hU2 _ (by decide) (by decide), hBB, hSfin, h3BB]
  · -- IslandHopper link
    rw [hU6 _ (by decide) (by decide), hP5, hS4, hSfin, h3GW]
  · -- LevelCreator link
    rw [hU6 _ (by decide) (by decide), hU5 _ (by decide) (by decide),
      hU4 _ (by decide) (by decide),
      hU3 _ (by decide) (by decide) (by decide),
      hU2 _ (by decide) (by decide), hLC, hSfin, h3LC]
  · -- Dedicated link
    rw [hU6 _ (by decide) (by decide), hU5 _ (by decide) (by decide),
      hU4 _ (by decide) (by decide),
      hU3 _ (by decide) (by decide) (by decide),
      hU2 _ (by decide) (by decide), hDE, hSfin, h3PS]
  · -- monotonicity
    intro j hj
    cases j
    · rw [hFW, hU6 _ (by decide) (by decide), hU5 _ (by decide) (by decide),
        hP4, h3GW]
      omega
    · by_cases hfast : gameTime < 30 * timeSecond
      · rw [h6T hfast]
        rcases hSR with h | h <;> rw [h] <;> decide
      · apply le_of_eq
        rw [h6F hfast, hU5 _ (by decide) (by decide),
          hU4 _ (by decide) (by decide),
          hU3 _ (by decide) (by decide) (by decide),
          hU2 _ (by decide) (by decide)]
    · apply le_of_eq
      rw [hU6 _ (by decide) (by decide), hU5 _ (by decide) (by decide),
        hU4 _ (by decide) (by decide), h3EF]
    · rcases Bool.eq_false_or_eq_true ta with hta | hta
      · rw [hU6 _ (by decide) (by decide), hU5 _ (by decide) (by decide),
          hU4 _ (by decide) (by decide),
          hU3 _ (by decide) (by decide) (by decide), (h2taT hta).1, hTA]
        omega
      · apply le_of_eq
        rw [hU6 _ (by decide) (by decide), hU5 _ (by decide) (by decide),
          hU4 _ (by decide) (by decide),
          hU3 _ (by decide) (by decide) (by decide), (h2taF hta).1]
    · rcases Bool.eq_false_or_eq_true perf with hperf | hperf
      · rw [hU6 _ (by decide) (by decide), hU5 _ (by decide) (by decide),
          hU4 _ (by decide) (by decide), (h3pT hperf).1, hPG]
        omega
      · apply le_of_eq
        rw [hU6 _ (by decide) (by decide), hU5 _ (by decide) (by decide),
          hU4 _ (by decide) (by decide), (h3pF hperf).1,
          hU2 _ (by decide) (by decide)]
    · apply le_of_eq
      rw [hU6 _ (by decide) (by decide), hU5 _ (by decide) (by decide),
        hU4 _ (by decide) (by decide),
        hU3 _ (by decide) (by decide) (by decide),
        hU2 _ (by decide) (by decide)]
    · rw [hIH, hU6 _ (by decide) (by decide), hP5, hS4, h3GW]
      omega
    · apply le_of_eq
      rw [hU6 _ (by decide) (by decide), hU5 _ (by decide) (by decide),
        hU4 _ (by decide) (by decide),
        hU3 _ (by decide) (by decide) (by decide),
        hU2 _ (by decide) (by decide)]
    · exact absurd rfl hj
    · exact hC6.2.2.2

theorem stepEvent_ok (s : AchievementSystem) (e : GameEvent)
    (hok : achOK s) (hlink : progressLink s) :
    ChainOK s (stepEvent s e) ∧ progressLink (stepEvent s e) ∧
    (∀ j, j ≠ AchievementDedicated →
      (s.achievements j).Progress ≤
        ((stepEvent s e).achievements j).Progress) := by
  cases e
  · exact OnGameStart_ok s _ hok hlink
  · exact OnGameWin_ok s _ _ _ _ _ hok hlink
  · exact OnBridgeBuilt_ok s _ hok hlink
  · exact OnLevelCreated_ok s _ hok hlink

theorem achOK_init : achOK NewAchievementSystem := by
  intro j
  cases j <;> exact ⟨by decide, by decide⟩

theorem progressLink_init : progressLink NewAchievementSystem := by
  unfold progressLink
  decide

theorem runEvents_inv (es : List GameEvent) :
    achOK (runEvents es) ∧ progressLink (runEvents es) := by
  induction es using List.reverseRecOn with
  | nil => exact ⟨achOK_init, progressLink_init⟩
  | append_singleton es e ih =>
    have hr : runEvents (es ++ [e]) = stepEvent (runEvents es) e := by
      unfold runEvents
      rw [List.foldl_append]
      rfl
    have h := stepEvent_ok (runEvents es) e ih.1 ih.2
    rw [hr]
    exact ⟨h.1.2.1, h.2.1⟩

/-- Counterexample to the claimed monotonicity of every progress counter:
the Dedicated achievement's progress follows the play streak, which the
source resets to 1 after a gap of more than one day.  Starting games at
hours 0, 24 and 120 gives streak 2 after the second start and streak 1
after the third, so the third `OnGameStart` strictly decreases the
Dedicated progress of a reachable state. -/
theorem C7_counterexample :
    ((runEvents [GameEvent.gameStart 0, GameEvent.gameStart 24]).achievements
        AchievementDedicated).Progress = 2 ∧
    ((runEvents [GameEvent.gameStart 0, GameEvent.gameStart 24,
        GameEvent.gameStart 120]).achievements
        AchievementDedicated).Progress = 1 ∧
    ¬ (((runEvents [GameEvent.gameStart 0,
          GameEvent.gameStart 24]).achievements
          AchievementDedicated).Progress ≤
        ((stepEvent (runEvents [GameEvent.gameStart 0, GameEvent.gameStart 24])
            (GameEvent.gameStart 120)).achievements
          AchievementDedicated).Progress) :=
  ⟨by decide, by decide, by decide⟩

/-- **C7** (amended).  Across any session (a sequence of event-handler
calls starting from `NewAchievementSystem`), every single handler call
preserves the unlock discipline: targets never change; the unlocked flag
never falls back; a flag that rises does so with progress at or above
target, and conversely whenever progress has reached the target the flag
is already up; the notification log (the listener-invocation record) gains
exactly one entry for the id at the flip and holds exactly one entry for
an unlocked id — so listeners fire exactly once per achievement; progress
is monotonically non-decreasing for every id except Dedicated (whose
streak-bound progress can reset, see the counterexample); and re-checking
an already-unlocked achievement is a no-op. -/
theorem C7_unlock_discipline (es : List GameEvent) (e : GameEvent)
    (id : AchievementType) :
    ((stepEvent (runEvents es) e).achievements id).Target =
      ((runEvents es).achievements id).Target ∧
    (((runEvents es).achievements id).Unlocked = true →
      ((stepEvent (runEvents es) e).achievements id).Unlocked = true) ∧
    (((stepEvent (runEvents es) e).achievements id).Unlocked = true →
      ((runEvents es).achievements id).Unlocked = true ∨
      ((stepEvent (runEvents es) e).achievements id).Target ≤
        ((stepEvent (runEvents es) e).achievements id).Progress) ∧
    (((stepEvent (runEvents es) e).achievements id).Target ≤
        ((stepEvent (runEvents es) e).achievements id).Progress →
      ((stepEvent (runEvents es) e).achievements id).Unlocked = true) ∧
    ((stepEvent (runEvents es) e).notified.count id =
      (runEvents es).notified.count id +
      (if ((stepEvent (runEvents es) e).achievements id).Unlocked = true ∧
          ¬ ((runEvents es).achievements id).Unlocked = true
       then 1 else 0)) ∧
    ((stepEvent (runEvents es) e).notified.count id =
      if ((stepEvent (runEvents es) e).achievements id).Unlocked = true
      then 1 else 0) ∧
    (id ≠ AchievementDedicated →
      ((runEvents es).achievements id).Progress ≤
        ((stepEvent (runEvents es) e).achievements id).Progress) ∧
    (∀ t : AchievementSystem, ∀ now : Int,
      (t.achievements id).Unlocked = true →
      checkAchievement t id now = t) := by
  have hinv := runEvents_inv es
  obtain ⟨hC, _, hmono⟩ := stepEvent_ok (runEvents es) e hinv.1 hinv.2
  obtain ⟨hev, hok', _, _⟩ := hC
  obtain ⟨htgt, hsticky, hflip, hcount⟩ := hev
  exact ⟨htgt id, hsticky id, hflip id, (hok' id).1, hcount id, (hok' id).2,
    hmono id, fun t now h => checkAchievement_of_unlocked now h⟩

theorem C7_unlock_discipline_witness :
    ((stepEvent
        (runEvents [GameEvent.gameWin 10 (60 * timeSecond) false false 0])
        (GameEvent.bridgeBuilt 24)).achievements
        AchievementFirstWin).Unlocked = true ∧
    (((runEvents [GameEvent.gameWin 10 (60 * timeSecond) false false
        0]).achievements AchievementFirstWin).Unlocked = true ∨
      ((stepEvent
          (runEvents [GameEvent.gameWin 10 (60 * timeSecond) false false 0])
          (GameEvent.bridgeBuilt 24)).achievements
          AchievementFirstWin).Target ≤
        ((stepEvent
            (runEvents [GameEvent.gameWin 10 (60 * timeSecond) false false 0])
            (GameEvent.bridgeBuilt 24)).achievements
            AchievementFirstWin).Progress) ∧
    ((runEvents [GameEvent.gameWin 10 (60 * timeSecond) false false
        0]).achievements AchievementFirstWin).Progress ≤
      ((stepEvent
          (runEvents [GameEvent.gameWin 10 (60 * timeSecond) false false 0])
          (GameEvent.bridgeBuilt 24)).achievements
          AchievementFirstWin).Progress ∧
    checkAchievement
        (runEvents [GameEvent.gameWin 10 (60 * timeSecond) false false 0])
        AchievementFirstWin 5 =
      runEvents [GameEvent.gameWin 10 (60 * timeSecond) false false 0] := by
  have h := C7_unlock_discipline
    [GameEvent.gameWin 10 (60 * timeSecond) false false 0]
    (GameEvent.bridgeBuilt 24) AchievementFirstWin
  exact ⟨h.2.1 (by decide),
    h.2.2.1 (h.2.2.2.1 (by decide)),
    h.2.2.2.2.2.2.1 (by decide),
    h.2.2.2.2.2.2.2
      (runEvents [GameEvent.gameWin 10 (60 * timeSecond) false false 0]) 5
      (by decide)⟩

end IslandMerge
